import Mathlib

/-!
Verification development for the Raven stream-mode lexer
(`codemirror-lang-raven`, `src/index.ts`).

The lexer is a CodeMirror `StreamParser`: a single `token` operation that,
given a cursor over one line of text (`StringStream`) and a mutable state
(`RavenState`), classifies the next token and updates the state.  Below the
source is shallowly embedded: the stream is a list of characters plus a
position, JavaScript regular-expression matches are implemented as explicit
anchored matchers, and the `while` loop of `readString` is implemented with
a fuel parameter that is always at least the number of remaining characters
(each loop iteration consumes at least one character, so the fuel never runs
out before the loop would exit on its own).
-/

/-- Characters matched by the JavaScript `\s` class (restricted to the code
points that can occur in a document line in this development). -/
def jsWhitespace (c : Char) : Bool :=
  c == ' ' || c == '\t' || c == '\n' || c == '\r' || c == '\x0b' || c == '\x0c' || c == ' '

/-- The JavaScript `\d` class (ASCII digits). -/
def isDigitCh (c : Char) : Bool :=
  48 ≤ c.toNat && c.toNat ≤ 57

/-- The class `[0-9a-fA-F]` used by the hexadecimal literal regex. -/
def isHexCh (c : Char) : Bool :=
  isDigitCh c || (65 ≤ c.toNat && c.toNat ≤ 70) || (97 ≤ c.toNat && c.toNat ≤ 102)

/-- `identifierStart = /[A-Za-z_]/` from the source. -/
def identifierStart (c : Char) : Bool :=
  (65 ≤ c.toNat && c.toNat ≤ 90) || (97 ≤ c.toNat && c.toNat ≤ 122) || c == '_'

/-- `identifierPart = /[A-Za-z0-9_!?]/` from the source. -/
def identifierPart (c : Char) : Bool :=
  identifierStart c || isDigitCh c || c == '!' || c == '?'

/-- `operatorChars = /=|!|<|>|\+|-|\*|\/|\^|:|&|\|/` from the source,
as a test on a single character. -/
def operatorChar (c : Char) : Bool :=
  c == '=' || c == '!' || c == '<' || c == '>' || c == '+' || c == '-' ||
  c == '*' || c == '/' || c == '^' || c == ':' || c == '&' || c == '|'

/-- Membership in the source's `delimiters` set `{ ( ) [ ] { } }`. -/
def isDelimiter (c : Char) : Bool :=
  c == '(' || c == ')' || c == '[' || c == ']' || c == '{' || c == '}'

/-- Membership in the source's `statementTerminators` set `{ , ) ] } # }`. -/
def isStatementTerminator (c : Char) : Bool :=
  c == ',' || c == ')' || c == ']' || c == '}' || c == '#'

/-- The two quote characters (`"` and the backtick, written `\x60`). -/
def isQuoteCh (c : Char) : Bool :=
  c == '"' || c == '\x60'

/-- One line of input together with the cursor position: the part of
CodeMirror's `StringStream` that the lexer uses. -/
structure StringStream where
  string : List Char
  pos : Nat
deriving DecidableEq, Repr

/-- The string context (`StringState` in the source): parameters of the
string literal the cursor is currently inside. -/
structure StringState where
  quote : Char
  slashes : Nat
  raw : Bool
  close : List Char
  escape : Option (List Char)
deriving DecidableEq, Repr

/-- The lexer state (`RavenState` in the source). -/
structure RavenState where
  string : Option StringState
  exprStart : Bool
  macroEligible : Bool
  afterDot : Bool
  inSwap : Bool
  macroLocked : Bool
  macroLockStack : List Bool
deriving DecidableEq, Repr

/-- `stream.eol()`. -/
def StringStream.eol (st : StringStream) : Bool :=
  st.string.length ≤ st.pos

/-- `stream.peek()`: the character at the cursor, if any. -/
def StringStream.peek (st : StringStream) : Option Char :=
  (st.string.drop st.pos).head?

/-- `stream.next()`: advance one character unless at end of line. -/
def StringStream.next (st : StringStream) : StringStream :=
  if st.string.length ≤ st.pos then st else { st with pos := st.pos + 1 }

/-- `stream.skipToEnd()`. -/
def StringStream.skipToEnd (st : StringStream) : StringStream :=
  { st with pos := st.string.length }

/-- `stream.eatWhile(p)`: advance while the current character satisfies `p`. -/
def StringStream.eatWhile (st : StringStream) (p : Char → Bool) : StringStream :=
  { st with pos := st.pos + ((st.string.drop st.pos).takeWhile p).length }

/-- `stream.eatSpace()`: advance over whitespace (the result reports, via the
position, whether anything was consumed). -/
def StringStream.eatSpace (st : StringStream) : StringStream :=
  { st with pos := st.pos + ((st.string.drop st.pos).takeWhile jsWhitespace).length }

/-- `stream.match(pat)` for a literal string pattern: consume `pat` if the
remaining input starts with it. -/
def StringStream.matchStr (st : StringStream) (pat : List Char) : Option StringStream :=
  if pat.isPrefixOf (st.string.drop st.pos) then some { st with pos := st.pos + pat.length }
  else none

/-- Length of the run of backslashes at the front of `l` (the `(\\*)` group). -/
def bsRun (l : List Char) : Nat :=
  (l.takeWhile (fun c => c == '\\')).length

/-- `isStringStart`: does `l` match `/^(\\*)(["\x60])/`, i.e. is it a run of
backslashes followed immediately by a quote character? -/
def isStringStart (l : List Char) : Bool :=
  match (l.drop (bsRun l)).head? with
  | some c => isQuoteCh c
  | none => false

/-- Anchored match of `/0x[0-9a-fA-F]+/`: returns the length consumed. -/
def matchHex (l : List Char) : Option Nat :=
  match l with
  | c0 :: r1 =>
    if c0 = '0' then
      match r1 with
      | c1 :: r =>
        if c1 = 'x' then
          if (r.takeWhile isHexCh).length = 0 then none
          else some (2 + (r.takeWhile isHexCh).length)
        else none
      | [] => none
    else none
  | [] => none

/-- The optional fractional part `(?:\.\d*)?`: length matched. -/
def fracLen (l : List Char) : Nat :=
  match l with
  | c :: r => if c = '.' then 1 + (r.takeWhile isDigitCh).length else 0
  | [] => 0

/-- Anchored match of the signed-literal regex: a minus sign, one or more
digits, then an optional fractional part. -/
def matchSigned (l : List Char) : Option Nat :=
  match l with
  | c :: r =>
    if c = '-' then
      if (r.takeWhile isDigitCh).length = 0 then none
      else some (1 + (r.takeWhile isDigitCh).length +
        fracLen (r.drop (r.takeWhile isDigitCh).length))
    else none
  | [] => none

/-- Anchored match of `/\d+(?:\.\d*)?/`. -/
def matchUnsigned (l : List Char) : Option Nat :=
  if (l.takeWhile isDigitCh).length = 0 then none
  else some ((l.takeWhile isDigitCh).length + fracLen (l.drop (l.takeWhile isDigitCh).length))

/-- Anchored match of `/\.\d+/`. -/
def matchDotNum (l : List Char) : Option Nat :=
  match l with
  | c :: r =>
    if c = '.' then
      if (r.takeWhile isDigitCh).length = 0 then none
      else some (1 + (r.takeWhile isDigitCh).length)
    else none
  | [] => none

/-- `peekNonSpace` walking a suffix: skip spaces, tabs and carriage returns;
a `#` (comment) counts as nothing following. Returns the character found (if
any) and its absolute position, the latter built from the index `i`. -/
def peekNonSpaceGo : List Char → Nat → Option Char × Nat
  | [], i => (none, i)
  | c :: tl, i =>
    if c = ' ' ∨ c = '\t' ∨ c = '\r' then peekNonSpaceGo tl (i + 1)
    else if c = '#' then (none, i)
    else (some c, i)

/-- `peekNonSpace(stream)` from the source. -/
def peekNonSpace (st : StringStream) : Option Char × Nat :=
  peekNonSpaceGo (st.string.drop st.pos) st.pos

/-- `startState()` from the source. -/
def startState : RavenState :=
  { string := none, exprStart := true, macroEligible := true, afterDot := false,
    inSwap := false, macroLocked := false, macroLockStack := [] }

/-- `blankLine(state)` from the source. -/
def blankLine (s : RavenState) : RavenState :=
  { s with exprStart := true, macroEligible := true, afterDot := false,
           inSwap := false, macroLocked := false }

/-- The statement-boundary reset performed at start of line, after a comment
and after a comma (the five scalar flags; `string` and `macroLockStack` are
not touched). -/
def resetLine (s : RavenState) : RavenState :=
  { s with exprStart := true, macroEligible := true, afterDot := false,
           inSwap := false, macroLocked := false }

/-- `startString(stream, state)`: attempt `stream.match(/(\\*)(["\x60])/)`.
The regex matches at the cursor exactly when the (maximal) run of backslashes
there is followed by a quote character; the consumed length is the run plus
the quote.  On success builds the `StringState` and installs it. -/
def startString (st : StringStream) (s : RavenState) :
    Option (StringState × StringStream × RavenState) :=
  let rest := st.string.drop st.pos
  let k := bsRun rest
  match (rest.drop k).head? with
  | some q =>
    if isQuoteCh q then
      let raw := q == '\x60'
      let info : StringState :=
        { quote := q, slashes := k, raw := raw,
          close := q :: List.replicate k '\\',
          escape := if raw then none else some (List.replicate (max 1 k) '\\') }
      some (info, { st with pos := st.pos + k + 1 },
        { s with string := some info, exprStart := false, macroEligible := false,
                 afterDot := false, inSwap := false })
    else none
  | none => none

/-- JavaScript truthiness of `info.escape` (`null` and the empty string are
falsy). -/
def escTruthy : Option (List Char) → Bool
  | some e => !e.isEmpty
  | none => false

/-- Does the remaining input start with the escape sequence? -/
def escMatches : Option (List Char) → List Char → Bool
  | some e, l => e.isPrefixOf l
  | none, _ => false

/-- Length of the escape sequence (0 for `null`). -/
def escLen : Option (List Char) → Nat
  | some e => e.length
  | none => 0

/-- Consuming an escape: the escape marker run, then (`if (!stream.eol())
stream.next()`) one more character. -/
def escAdvance (st : StringStream) (info : StringState) : StringStream :=
  let st' := { st with pos := st.pos + escLen info.escape }
  if st'.string.length ≤ st'.pos then st' else st'.next

/-- The `while` loop of `readString(stream, state)`, with fuel.  Each
iteration: if at end of line, yield `string` leaving the context in place; if
the close sequence matches, consume it, destroy the context and yield
`string`; otherwise, for non-raw strings whose escape sequence matches,
consume the escape plus one character; otherwise consume one character. -/
def readStringGo : Nat → StringStream → RavenState → StringState →
    Option String × StringStream × RavenState
  | 0, st, s, _ => (some "string", st, s)
  | fuel + 1, st, s, info =>
    if st.string.length ≤ st.pos then (some "string", st, s)
    else if info.close.isPrefixOf (st.string.drop st.pos) then
      (some "string", { st with pos := st.pos + info.close.length },
       { s with string := none, exprStart := false, macroEligible := false })
    else if info.raw = false ∧ escTruthy info.escape = true ∧
        escMatches info.escape (st.string.drop st.pos) = true then
      readStringGo fuel (escAdvance st info) s info
    else
      readStringGo fuel st.next s info

/-- `readString(stream, state)` with the string context passed explicitly
(in the source it is read off `state.string!`, which the `token` dispatch
guarantees to be non-null).  The fuel `length - pos` bounds the number of
loop iterations, each of which consumes at least one character. -/
def readString (st : StringStream) (s : RavenState) (info : StringState) :
    Option String × StringStream × RavenState :=
  readStringGo (st.string.length - st.pos) st s info

/-- The state update shared by all four branches of `readNumber`. -/
def numState (s : RavenState) : RavenState :=
  { s with exprStart := false, macroEligible := false, afterDot := false, inSwap := false }

/-- `readNumber(stream, state)`: hexadecimal, then (at expression start) the
signed literal, then the unsigned literal, then (at expression start) the
leading-dot literal.  Returns the advanced stream and updated state on a
match. -/
def readNumber (st : StringStream) (s : RavenState) : Option (StringStream × RavenState) :=
  let rest := st.string.drop st.pos
  match matchHex rest with
  | some n => some ({ st with pos := st.pos + n }, numState s)
  | none =>
    match (if s.exprStart then matchSigned rest else none) with
    | some n => some ({ st with pos := st.pos + n }, numState s)
    | none =>
      match matchUnsigned rest with
      | some n => some ({ st with pos := st.pos + n }, numState s)
      | none =>
        match (if s.exprStart then matchDotNum rest else none) with
        | some n => some ({ st with pos := st.pos + n }, numState s)
        | none => none

/-- Is there a digit at absolute position `i` (`/\d/.test(stream.string[i] ?? "")`)? -/
def digitAt (st : StringStream) (i : Nat) : Bool :=
  match (st.string.drop i).head? with
  | some c => isDigitCh c
  | none => false

/-- `isArgStart(stream, next)` from the source. -/
def isArgStart (st : StringStream) (next : Option Char × Nat) : Bool :=
  match next.1 with
  | none => false
  | some ch =>
    if identifierStart ch || isDigitCh ch then true
    else if ch == '.' && digitAt st (next.2 + 1) then true
    else if ch == '(' || ch == '[' || ch == '{' || ch == '@' then true
    else if ch == '"' || ch == '\x60' then true
    else if ch == '\\' then isStringStart (st.string.drop next.2)
    else if ch == '&' then true
    else if ch == '-' && digitAt st (next.2 + 1) then true
    else false

/-- `shouldKeyword(stream, state)` from the source: the stream has already
consumed the identifier run.  Refusal cases in order: flags; an immediate
call/index/member character; an immediately adjacent string start; nothing
(or a statement terminator) ahead; otherwise promote exactly when an
argument can start there. -/
def shouldKeyword (st : StringStream) (s : RavenState) : Bool :=
  if !s.exprStart || !s.macroEligible || s.afterDot || s.inSwap || s.macroLocked then false
  else if st.peek = some '(' ∨ st.peek = some '[' ∨ st.peek = some '.' then false
  else if st.peek.isSome && isStringStart (st.string.drop st.pos) then false
  else
    match (peekNonSpace st).1 with
    | none => false
    | some c =>
      if isStatementTerminator c then false
      else isArgStart st (peekNonSpace st)

/-- `multiCharOps = ["..."]` from the source. -/
def multiCharOps : List (List Char) := [['.', '.', '.']]

/-- `pairedOps` from the source. -/
def pairedOps : List (List Char) :=
  [['=', '='], ['!', '='], ['>', '='], ['<', '='], ['&', '&'], ['|', '|'], ['|', '>']]

/-- `singleOps` from the source. -/
def singleOps : List (List Char) :=
  [['='], ['+'], ['-'], ['*'], ['/'], ['^'], ['>'], ['<'], [':'], ['&'], ['|']]

/-- The tail of the single-character dispatch: the dot/ellipsis cases,
identifiers, generic operator characters, and the unclassified fallback. -/
def tokenTail (ch : Char) (st : StringStream) (s : RavenState) :
    Option String × StringStream × RavenState :=
  if ch = '.' then
    if st.next.peek = some '.' then
      (some "operator", st.next,
       { s with exprStart := false, macroEligible := false,
                afterDot := false, inSwap := false })
    else
      (some "punctuation", st.next,
       { s with afterDot := true, exprStart := false,
                macroEligible := false, inSwap := false })
  else if identifierStart ch then
    if shouldKeyword (st.next.eatWhile identifierPart) s then
      (some "keyword", st.next.eatWhile identifierPart,
       { s with exprStart := true, macroEligible := false,
                macroLocked := true, afterDot := false, inSwap := false })
    else
      (some (if s.afterDot then "propertyName"
             else if s.inSwap then "variableName.special"
             else "variableName"),
       st.next.eatWhile identifierPart,
       { s with exprStart := false, macroEligible := false,
                afterDot := false, inSwap := false })
  else if operatorChar ch then
    (some "operator", st.next,
     { s with exprStart := true, macroEligible := true,
              afterDot := false, inSwap := false })
  else
    (none, st.next,
     { s with exprStart := false, macroEligible := false,
              afterDot := false, inSwap := false })

/-- The operator-table part of the dispatch: the multi-character table, the
paired table, the swap `&`, and the single-character table.  (In the `&`
branch the source performs `state.afterDot = false` after the lookahead;
here that assignment is distributed into the three cases.) -/
def tokenOps (ch : Char) (st : StringStream) (s : RavenState) :
    Option String × StringStream × RavenState :=
  match (multiCharOps.find? (fun op => op.isPrefixOf (st.string.drop st.pos))) with
  | some op =>
    (some "operator", { st with pos := st.pos + op.length },
     { s with exprStart := false, macroEligible := false,
              afterDot := false, inSwap := false })
  | none =>
    match (pairedOps.find? (fun op => op.isPrefixOf (st.string.drop st.pos))) with
    | some op =>
      (some "operator", { st with pos := st.pos + op.length },
       { s with exprStart := true, macroEligible := true,
                afterDot := false, inSwap := false })
    | none =>
      if ch = '&' then
        (some "operator", st.next,
         match st.next.peek with
         | some c2 =>
           if c2 ≠ '&' ∧ identifierStart c2 then
             { s with inSwap := true, afterDot := false }
           else
             { s with exprStart := true, macroEligible := true, afterDot := false }
         | none => { s with exprStart := true, macroEligible := true, afterDot := false })
      else
        match (singleOps.find? (fun op => op.isPrefixOf (st.string.drop st.pos))) with
        | some op =>
          (some "operator", { st with pos := st.pos + op.length },
           { s with exprStart := true, macroEligible := true,
                    afterDot := false, inSwap := false })
        | none => tokenTail ch st s

/-- The head of the single-character dispatch of `token(stream, state)`:
comments, commas, brackets, annotations, then the operator tables and the
tail.  `s` is the state after the line-start reset. -/
def tokenChar (st : StringStream) (s : RavenState) :
    Option String × StringStream × RavenState :=
  match st.peek with
  | none => (none, st, s)
  | some ch =>
    if ch = '#' then (some "comment", st.skipToEnd, resetLine s)
    else if ch = ',' then (some "punctuation", st.next, resetLine s)
    else if isDelimiter ch then
      if ch = '(' ∨ ch = '[' ∨ ch = '{' then
        (some "bracket", st.next,
         { s with macroLockStack := s.macroLocked :: s.macroLockStack,
                  macroLocked := false, exprStart := true, macroEligible := true,
                  afterDot := false, inSwap := false })
      else
        (some "bracket", st.next,
         { s with macroLocked := s.macroLockStack.headD false,
                  macroLockStack := s.macroLockStack.tail,
                  exprStart := false, macroEligible := false,
                  afterDot := false, inSwap := false })
    else if ch = '@' then
      (some "annotation", st.next.eatWhile identifierPart,
       { s with exprStart := true, macroEligible := false,
                afterDot := false, inSwap := false })
    else tokenOps ch st s

/-- The string-open stage of `token`: try `startString`, then fall through to
the single-character dispatch. -/
def tokenStrOpen (st : StringStream) (s : RavenState) :
    Option String × StringStream × RavenState :=
  match startString st s with
  | some (info, st', s') => readString st' s' info
  | none => tokenChar st s

/-- The numeric stage of `token`: try `readNumber`, then fall through. -/
def tokenNum (st : StringStream) (s : RavenState) :
    Option String × StringStream × RavenState :=
  match readNumber st s with
  | some (st', s') => (some "number", st', s')
  | none => tokenStrOpen st s

/-- The whitespace stage of `token`: `if (stream.eatSpace()) return null`,
then fall through. -/
def tokenSpace (st : StringStream) (s : RavenState) :
    Option String × StringStream × RavenState :=
  if st.pos < st.eatSpace.pos then (none, st.eatSpace, s) else tokenNum st s

/-- The body of `token(stream, state)` once `state.string` is known to be
null: the line-start reset (the source mutates `state` in place; here the
reset state is passed to the later stages), then whitespace, numbers, string
opens, and the single-character dispatch. -/
def tokenMain (st : StringStream) (s : RavenState) :
    Option String × StringStream × RavenState :=
  tokenSpace st (if st.pos = 0 then resetLine s else s)

/-- `token(stream, state)` from the source: delegate to `readString` while a
string context is open, otherwise run the main dispatch. -/
def token (st : StringStream) (s : RavenState) : Option String × StringStream × RavenState :=
  match s.string with
  | some info => readString st s info
  | none => tokenMain st s

/-- Driving a whole line the way a CodeMirror host does: call `token` until
end of line (with fuel bounding the number of calls), recording for each call
the returned style and the consumed span of characters. -/
def runLine : Nat → StringStream → RavenState →
    List (Option String × List Char) × RavenState
  | 0, _, s => ([], s)
  | n + 1, st, s =>
    if st.string.length ≤ st.pos then ([], s)
    else
      (((token st s).1,
        (st.string.drop st.pos).take ((token st s).2.1.pos - st.pos)) ::
          (runLine n (token st s).2.1 (token st s).2.2).1,
       (runLine n (token st s).2.1 (token st s).2.2).2)

/-- The contribution of one recorded token to the open-bracket nesting depth:
`+1` for a bracket token consuming an opening delimiter, `-1` for a bracket
token consuming a closing delimiter, `0` for every other token. -/
def bracketDelta (ev : Option String × List Char) : Int :=
  if ev.1 = some "bracket" then
    if ev.2 = ['('] ∨ ev.2 = ['['] ∨ ev.2 = ['{'] then 1 else -1
  else 0

/-- Index of the first occurrence of `pat` in `l` (as a sublist occurrence
starting at that index), if any. -/
def firstIdx (pat : List Char) : List Char → Option Nat
  | [] => if pat.isPrefixOf ([] : List Char) then some 0 else none
  | c :: tl =>
    if pat.isPrefixOf (c :: tl) then some 0
    else (firstIdx pat tl).map (· + 1)

/-! ## Basic utilities -/

lemma class_ne {p : Char → Bool} {c x : Char} (hc : p c = true) (hx : p x = false) : c ≠ x := by
  intro h; subst h; rw [hc] at hx; simp at hx

lemma drop_cons_pos {l : List Char} {p : Nat} {c : Char} {tl : List Char}
    (h : l.drop p = c :: tl) : p < l.length := by
  by_contra hle
  rw [List.drop_eq_nil_of_le (by omega)] at h
  simp at h

lemma drop_succ_of_cons {l : List Char} {p : Nat} {c : Char} {tl : List Char}
    (h : l.drop p = c :: tl) : l.drop (p + 1) = tl := by
  have h1 := congrArg (List.drop 1) h
  rw [List.drop_drop] at h1
  simpa [Nat.add_comm] using h1

lemma peek_of_cons {st : StringStream} {c : Char} {tl : List Char}
    (hd : st.string.drop st.pos = c :: tl) : st.peek = some c := by
  simp [StringStream.peek, hd]

lemma next_of_cons {st : StringStream} {c : Char} {tl : List Char}
    (hd : st.string.drop st.pos = c :: tl) : st.next = { st with pos := st.pos + 1 } := by
  have := drop_cons_pos hd
  simp [StringStream.next]
  omega

lemma eatSpace_of_not_ws {st : StringStream} {c : Char} {tl : List Char}
    (hd : st.string.drop st.pos = c :: tl) (hw : jsWhitespace c = false) :
    st.eatSpace = st := by
  simp [StringStream.eatSpace, hd, List.takeWhile_cons, hw]

lemma isStringStart_cons_false {c : Char} {tl : List Char}
    (hb : c ≠ '\\') (hq : isQuoteCh c = false) : isStringStart (c :: tl) = false := by
  have hbs : bsRun (c :: tl) = 0 := by
    simp [bsRun, List.takeWhile_cons, hb]
  simp [isStringStart, hbs, hq]

lemma isStringStart_ne_nil {l : List Char} (h : isStringStart l = true) : l ≠ [] := by
  intro hl; subst hl; simp [isStringStart, bsRun] at h

lemma startString_none_iff {st : StringStream} {s : RavenState} :
    startString st s = none ↔ isStringStart (st.string.drop st.pos) = false := by
  simp only [startString, isStringStart]
  cases h : ((st.string.drop st.pos).drop (bsRun (st.string.drop st.pos))).head? with
  | none => simp
  | some q => by_cases hq : isQuoteCh q = true <;> simp [hq]

lemma matchHex_cons_none {c : Char} {tl : List Char} (h : c ≠ '0') :
    matchHex (c :: tl) = none := by
  simp [matchHex, h]

lemma matchSigned_cons_none {c : Char} {tl : List Char} (h : c ≠ '-') :
    matchSigned (c :: tl) = none := by
  simp [matchSigned, h]

lemma matchUnsigned_cons_none {c : Char} {tl : List Char} (h : isDigitCh c = false) :
    matchUnsigned (c :: tl) = none := by
  simp [matchUnsigned, List.takeWhile_cons, h]

lemma matchDotNum_cons_none {c : Char} {tl : List Char} (h : c ≠ '.') :
    matchDotNum (c :: tl) = none := by
  simp [matchDotNum, h]

lemma readNumber_none {st : StringStream} {s : RavenState} {c : Char} {tl : List Char}
    (hd : st.string.drop st.pos = c :: tl)
    (h0 : c ≠ '0') (hm : c ≠ '-') (hdg : isDigitCh c = false) (hdot : c ≠ '.') :
    readNumber st s = none := by
  unfold readNumber
  rw [hd]
  simp [matchHex_cons_none h0, matchUnsigned_cons_none hdg,
        matchSigned_cons_none hm, matchDotNum_cons_none hdot]

lemma token_of_string_none {st : StringStream} {s : RavenState} (hs : s.string = none) :
    token st s = tokenMain st s := by
  unfold token; rw [hs]

lemma token_of_string_some {st : StringStream} {s : RavenState} {info : StringState}
    (hs : s.string = some info) : token st s = readString st s info := by
  unfold token; rw [hs]

lemma jsWhitespace_false_of_identStart {c : Char} (hc : identifierStart c = true) :
    jsWhitespace c = false := by
  cases hdec : jsWhitespace c
  · rfl
  · exfalso
    simp only [jsWhitespace, Bool.or_eq_true, beq_iff_eq] at hdec
    rcases hdec with ((((((rfl | rfl) | rfl) | rfl) | rfl) | rfl) | rfl) <;>
      exact absurd hc (by decide)

lemma isQuoteCh_false_of_ne {c : Char} (h1 : c ≠ '"') (h2 : c ≠ '\x60') :
    isQuoteCh c = false := by
  cases hdec : isQuoteCh c
  · rfl
  · exfalso
    simp only [isQuoteCh, Bool.or_eq_true, beq_iff_eq] at hdec
    rcases hdec with rfl | rfl
    · exact h1 rfl
    · exact h2 rfl

lemma isDelimiter_false_of_ne {c : Char} (h1 : c ≠ '(') (h2 : c ≠ ')') (h3 : c ≠ '[')
    (h4 : c ≠ ']') (h5 : c ≠ '{') (h6 : c ≠ '}') : isDelimiter c = false := by
  cases hdec : isDelimiter c
  · rfl
  · exfalso
    simp only [isDelimiter, Bool.or_eq_true, beq_iff_eq] at hdec
    rcases hdec with (((((rfl | rfl) | rfl) | rfl) | rfl) | rfl) <;> simp_all

lemma isDigitCh_false_of_identStart {c : Char} (hc : identifierStart c = true) :
    isDigitCh c = false := by
  cases hdec : isDigitCh c
  · rfl
  · exfalso
    simp only [isDigitCh, Bool.and_eq_true, decide_eq_true_eq] at hdec
    simp only [identifierStart, Bool.or_eq_true, Bool.and_eq_true, decide_eq_true_eq,
      beq_iff_eq] at hc
    rcases hc with ⟨h1, h2⟩ | ⟨h1, h2⟩ | rfl
    · omega
    · omega
    · exact absurd hdec (by decide)

lemma multiOps_none {c : Char} {tl : List Char} (h : c ≠ '.') :
    multiCharOps.find? (fun op => op.isPrefixOf (c :: tl)) = none := by
  simp [multiCharOps, List.isPrefixOf, Ne.symm h]

lemma pairedOps_none {c : Char} {tl : List Char} (h1 : c ≠ '=') (h2 : c ≠ '!')
    (h3 : c ≠ '>') (h4 : c ≠ '<') (h5 : c ≠ '&') (h6 : c ≠ '|') :
    pairedOps.find? (fun op => op.isPrefixOf (c :: tl)) = none := by
  simp [pairedOps, List.isPrefixOf, Ne.symm h1, Ne.symm h2, Ne.symm h3, Ne.symm h4,
    Ne.symm h5, Ne.symm h6]

lemma singleOps_none {c : Char} {tl : List Char} (h1 : c ≠ '=') (h2 : c ≠ '+')
    (h3 : c ≠ '-') (h4 : c ≠ '*') (h5 : c ≠ '/') (h6 : c ≠ '^') (h7 : c ≠ '>')
    (h8 : c ≠ '<') (h9 : c ≠ ':') (h10 : c ≠ '&') (h11 : c ≠ '|') :
    singleOps.find? (fun op => op.isPrefixOf (c :: tl)) = none := by
  simp [singleOps, List.isPrefixOf, Ne.symm h1, Ne.symm h2, Ne.symm h3, Ne.symm h4,
    Ne.symm h5, Ne.symm h6, Ne.symm h7, Ne.symm h8, Ne.symm h9, Ne.symm h10, Ne.symm h11]

lemma token_ident {st : StringStream} {s : RavenState} {c : Char} {tl : List Char}
    (hs : s.string = none) (hd : st.string.drop st.pos = c :: tl)
    (hc : identifierStart c = true) :
    token st s =
      (if shouldKeyword (st.next.eatWhile identifierPart)
            (if st.pos = 0 then resetLine s else s) then
        (some "keyword", st.next.eatWhile identifierPart,
         { (if st.pos = 0 then resetLine s else s) with
             exprStart := true, macroEligible := false, macroLocked := true,
             afterDot := false, inSwap := false })
      else
        (some (if (if st.pos = 0 then resetLine s else s).afterDot then "propertyName"
               else if (if st.pos = 0 then resetLine s else s).inSwap then "variableName.special"
               else "variableName"), st.next.eatWhile identifierPart,
         { (if st.pos = 0 then resetLine s else s) with
             exprStart := false, macroEligible := false,
             afterDot := false, inSwap := false })) := by
  have hws : jsWhitespace c = false := jsWhitespace_false_of_identStart hc
  have hdg : isDigitCh c = false := isDigitCh_false_of_identStart hc
  have h0 : c ≠ '0' := class_ne hc (by decide)
  have hm : c ≠ '-' := class_ne hc (by decide)
  have hdot : c ≠ '.' := class_ne hc (by decide)
  have hbs : c ≠ '\\' := class_ne hc (by decide)
  have hq : isQuoteCh c = false :=
    isQuoteCh_false_of_ne (class_ne hc (by decide)) (class_ne hc (by decide))
  have hsh : c ≠ '#' := class_ne hc (by decide)
  have hcm : c ≠ ',' := class_ne hc (by decide)
  have hat : c ≠ '@' := class_ne hc (by decide)
  have ham : c ≠ '&' := class_ne hc (by decide)
  have hdl : isDelimiter c = false :=
    isDelimiter_false_of_ne (class_ne hc (by decide)) (class_ne hc (by decide))
      (class_ne hc (by decide)) (class_ne hc (by decide)) (class_ne hc (by decide))
      (class_ne hc (by decide))
  have hss : isStringStart (st.string.drop st.pos) = false := by
    rw [hd]; exact isStringStart_cons_false hbs hq
  have hstart : ∀ s' : RavenState, startString st s' = none :=
    fun s' => startString_none_iff.mpr hss
  rw [token_of_string_none hs]
  simp only [tokenMain, tokenSpace, tokenNum, tokenStrOpen, tokenChar, tokenOps, tokenTail,
    eatSpace_of_not_ws hd hws, lt_self_iff_false, if_false,
    readNumber_none hd h0 hm hdg hdot, hstart, peek_of_cons hd, hd,
    multiOps_none hdot,
    pairedOps_none (class_ne hc (by decide)) (class_ne hc (by decide))
      (class_ne hc (by decide)) (class_ne hc (by decide)) ham (class_ne hc (by decide)),
    singleOps_none (class_ne hc (by decide)) (class_ne hc (by decide)) hm
      (class_ne hc (by decide)) (class_ne hc (by decide)) (class_ne hc (by decide))
      (class_ne hc (by decide)) (class_ne hc (by decide)) (class_ne hc (by decide))
      ham (class_ne hc (by decide)),
    hsh, hcm, hat, ham, hdl, hdot, hc]
  simp

lemma next_string {st : StringStream} : st.next.string = st.string := by
  unfold StringStream.next; split <;> rfl

lemma next_pos_ge {st : StringStream} : st.pos ≤ st.next.pos := by
  unfold StringStream.next; split <;> simp

lemma next_pos_le {st : StringStream} : st.next.pos ≤ st.pos + 1 := by
  unfold StringStream.next; split <;> simp

lemma next_pos_of_lt {st : StringStream} (h : st.pos < st.string.length) :
    st.next.pos = st.pos + 1 := by
  unfold StringStream.next
  rw [if_neg (by omega)]

lemma escAdvance_string {st : StringStream} {info : StringState} :
    (escAdvance st info).string = st.string := by
  simp only [escAdvance]
  split
  · rfl
  · rw [next_string]

lemma escAdvance_pos_ge {st : StringStream} {info : StringState} :
    st.pos + escLen info.escape ≤ (escAdvance st info).pos := by
  simp only [escAdvance]
  split
  · simp
  · exact @next_pos_ge { st with pos := st.pos + escLen info.escape }

lemma readStringGo_fst (f : Nat) (st : StringStream) (s : RavenState) (info : StringState) :
    (readStringGo f st s info).1 = some "string" := by
  induction f generalizing st with
  | zero => rfl
  | succ f ih =>
    simp only [readStringGo]
    split
    · rfl
    · split
      · rfl
      · split
        · exact ih _
        · exact ih _

lemma readStringGo_string_eq (f : Nat) (st : StringStream) (s : RavenState) (info : StringState) :
    (readStringGo f st s info).2.1.string = st.string := by
  induction f generalizing st with
  | zero => rfl
  | succ f ih =>
    simp only [readStringGo]
    split
    · rfl
    · split
      · rfl
      · split
        · rw [ih (escAdvance st info), escAdvance_string]
        · rw [ih st.next, next_string]

lemma readStringGo_pos_le (f : Nat) (st : StringStream) (s : RavenState) (info : StringState) :
    st.pos ≤ (readStringGo f st s info).2.1.pos := by
  induction f generalizing st with
  | zero => exact Nat.le_refl _
  | succ f ih =>
    simp only [readStringGo]
    split
    · exact Nat.le_refl _
    · split
      · simp
      · split
        · calc st.pos ≤ st.pos + escLen info.escape := by omega
            _ ≤ (escAdvance st info).pos := escAdvance_pos_ge
            _ ≤ _ := ih _
        · calc st.pos ≤ st.next.pos := next_pos_ge
            _ ≤ _ := ih _

lemma readStringGo_state (f : Nat) (st : StringStream) (s : RavenState) (info : StringState) :
    (readStringGo f st s info).2.2 = s ∨
    (readStringGo f st s info).2.2 =
      { s with string := none, exprStart := false, macroEligible := false } := by
  induction f generalizing st with
  | zero => exact Or.inl rfl
  | succ f ih =>
    simp only [readStringGo]
    split
    · exact Or.inl rfl
    · split
      · exact Or.inr rfl
      · split
        · exact ih _
        · exact ih _

lemma readString_progress {st : StringStream} {s : RavenState} {info : StringState}
    (h : st.pos < st.string.length) (hc : info.close ≠ []) :
    st.pos + 1 ≤ (readString st s info).2.1.pos := by
  unfold readString
  obtain ⟨f, hf⟩ : ∃ f, st.string.length - st.pos = f + 1 :=
    ⟨st.string.length - st.pos - 1, by omega⟩
  rw [hf]
  simp only [readStringGo]
  split
  · omega
  · split
    · have := List.length_pos.mpr hc
      simp
      omega
    · split
      · rename_i hcond
        have hel : 1 ≤ escLen info.escape := by
          obtain ⟨-, h2, -⟩ := hcond
          cases he : info.escape with
          | none => rw [he] at h2; simp [escTruthy] at h2
          | some e =>
            rw [he] at h2
            simp [escTruthy, List.isEmpty_iff] at h2
            have := List.length_pos.mpr h2
            simp [escLen, he]
            omega
        calc st.pos + 1 ≤ st.pos + escLen info.escape := by omega
          _ ≤ (escAdvance st info).pos := escAdvance_pos_ge
          _ ≤ _ := readStringGo_pos_le _ _ _ _
      · calc st.pos + 1 = st.next.pos := (next_pos_of_lt h).symm
          _ ≤ _ := readStringGo_pos_le _ _ _ _

lemma token_pos_eol {st : StringStream} {s : RavenState} (h : st.string.length ≤ st.pos) :
    (token st s).2.1.pos = st.pos := by
  have hd : st.string.drop st.pos = [] := List.drop_eq_nil_of_le h
  cases hs : s.string with
  | some info =>
    rw [token_of_string_some hs]
    unfold readString
    rw [show st.string.length - st.pos = 0 from by omega]
    rfl
  | none =>
    rw [token_of_string_none hs]
    have hnum : ∀ s' : RavenState, readNumber st s' = none := by
      intro s'
      unfold readNumber
      rw [hd]
      simp [matchHex, matchSigned, matchUnsigned, matchDotNum]
    have hstart : ∀ s' : RavenState, startString st s' = none := by
      intro s'
      refine startString_none_iff.mpr ?_
      rw [hd]
      simp [isStringStart, bsRun]
    simp only [tokenMain, tokenSpace, tokenNum, tokenStrOpen, tokenChar, tokenOps, tokenTail,
      StringStream.eatSpace, hd, List.takeWhile_nil, List.length_nil,
      Nat.add_zero, lt_self_iff_false, if_false, hnum, hstart, StringStream.peek,
      List.head?_nil]

lemma head?_some_ex {l : List Char} {c : Char} (h : l.head? = some c) :
    ∃ tl, l = c :: tl := by
  cases l with
  | nil => simp at h
  | cons a tl =>
    simp at h
    exact ⟨tl, by rw [h]⟩

lemma ite_reset_stack (P : Prop) [Decidable P] (s : RavenState) :
    (if P then resetLine s else s).macroLockStack = s.macroLockStack := by
  split <;> rfl

lemma ite_reset_string (P : Prop) [Decidable P] (s : RavenState) :
    (if P then resetLine s else s).string = s.string := by
  split <;> rfl

lemma matchHex_ge1 {l : List Char} {n : Nat} (h : matchHex l = some n) : 1 ≤ n := by
  unfold matchHex at h
  repeat' split at h
  all_goals cases h
  all_goals omega

lemma matchSigned_ge1 {l : List Char} {n : Nat} (h : matchSigned l = some n) : 1 ≤ n := by
  unfold matchSigned at h
  repeat' split at h
  all_goals cases h
  all_goals omega

lemma matchUnsigned_ge1 {l : List Char} {n : Nat} (h : matchUnsigned l = some n) : 1 ≤ n := by
  unfold matchUnsigned at h
  repeat' split at h
  all_goals cases h
  all_goals omega

lemma matchDotNum_ge1 {l : List Char} {n : Nat} (h : matchDotNum l = some n) : 1 ≤ n := by
  unfold matchDotNum at h
  repeat' split at h
  all_goals cases h
  all_goals omega

lemma readNumber_some_inv {st : StringStream} {s : RavenState} {r : StringStream × RavenState}
    (h : readNumber st s = some r) :
    r.2 = numState s ∧ st.pos + 1 ≤ r.1.pos ∧ r.1.string = st.string := by
  simp only [readNumber] at h
  cases hm : matchHex (st.string.drop st.pos) with
  | some n =>
    rw [hm] at h
    rw [Option.some_inj] at h
    have := matchHex_ge1 hm
    rw [← h]
    exact ⟨rfl, by simp; omega, rfl⟩
  | none =>
    rw [hm] at h
    cases hm2 : (if s.exprStart = true then matchSigned (st.string.drop st.pos) else none) with
    | some n =>
      rw [hm2] at h
      rw [Option.some_inj] at h
      have hs2 : matchSigned (st.string.drop st.pos) = some n := by
        by_cases he : s.exprStart = true
        · rw [if_pos he] at hm2; exact hm2
        · rw [if_neg he] at hm2; cases hm2
      have := matchSigned_ge1 hs2
      rw [← h]
      exact ⟨rfl, by simp; omega, rfl⟩
    | none =>
      rw [hm2] at h
      cases hm3 : matchUnsigned (st.string.drop st.pos) with
      | some n =>
        rw [hm3] at h
        rw [Option.some_inj] at h
        have := matchUnsigned_ge1 hm3
        rw [← h]
        exact ⟨rfl, by simp; omega, rfl⟩
      | none =>
        rw [hm3] at h
        cases hm4 : (if s.exprStart = true then matchDotNum (st.string.drop st.pos) else none) with
        | some n =>
          rw [hm4] at h
          rw [Option.some_inj] at h
          have hs4 : matchDotNum (st.string.drop st.pos) = some n := by
            by_cases he : s.exprStart = true
            · rw [if_pos he] at hm4; exact hm4
            · rw [if_neg he] at hm4; cases hm4
          have := matchDotNum_ge1 hs4
          rw [← h]
          exact ⟨rfl, by simp; omega, rfl⟩
        | none =>
          rw [hm4] at h
          cases h

lemma startString_some_inv {st : StringStream} {s : RavenState}
    {info : StringState} {st' : StringStream} {s' : RavenState}
    (h : startString st s = some (info, st', s')) :
    s' = { s with string := some info, exprStart := false, macroEligible := false,
                  afterDot := false, inSwap := false } ∧
    st' = { st with pos := st.pos + info.slashes + 1 } ∧
    info.close = info.quote :: List.replicate info.slashes '\\' ∧
    info.close ≠ [] := by
  simp only [startString] at h
  split at h
  · split at h
    · rename_i q hq hquote
      rw [Option.some_inj] at h
      obtain ⟨hinfo, hst, hs⟩ : info = _ ∧ st' = _ ∧ s' = _ := by
        have h1 := congrArg Prod.fst h
        have h2 := congrArg (fun x => x.2.1) h
        have h3 := congrArg (fun x => x.2.2) h
        exact ⟨h1.symm, h2.symm, h3.symm⟩
      subst hinfo
      refine ⟨by rw [hs], by rw [hst], rfl, by simp⟩
    · cases h
  · cases h

set_option maxHeartbeats 1000000 in
/-- Trichotomy of the effect of one `token` call on `macroLockStack`: an
opening bracket pushes, a closing bracket pops (`tail`), every other branch
leaves the stack unchanged. -/
lemma token_stack (st : StringStream) (s : RavenState)
    (r : Option String × StringStream × RavenState) (htok : token st s = r) :
    (r.1 = some "bracket" ∧ r.2.1.pos = st.pos + 1 ∧
      ∃ c tl, st.string.drop st.pos = c :: tl ∧
        (((c = '(' ∨ c = '[' ∨ c = '{') ∧
           r.2.2.macroLockStack =
             (if st.pos = 0 then resetLine s else s).macroLocked :: s.macroLockStack) ∨
         (¬(c = '(' ∨ c = '[' ∨ c = '{') ∧
           r.2.2.macroLockStack = s.macroLockStack.tail))) ∨
    (r.1 ≠ some "bracket" ∧ r.2.2.macroLockStack = s.macroLockStack) := by
  cases hs : s.string with
  | some info =>
    rw [token_of_string_some hs] at htok
    subst htok
    right
    refine ⟨by rw [readString, readStringGo_fst]; simp, ?_⟩
    rcases readStringGo_state (st.string.length - st.pos) st s info with h | h
    · rw [readString, h]
    · rw [readString, h]
  | none =>
    rw [token_of_string_none hs] at htok
    unfold tokenMain tokenSpace at htok
    split at htok
    · subst htok
      right
      exact ⟨by simp, ite_reset_stack _ _⟩
    · unfold tokenNum at htok
      split at htok
      · -- readNumber matched
        rename_i st' s' heq
        subst htok
        right
        refine ⟨by simp, ?_⟩
        show s'.macroLockStack = s.macroLockStack
        rw [show s' = numState (if st.pos = 0 then resetLine s else s) from
          (readNumber_some_inv heq).1]
        split <;> rfl
      · unfold tokenStrOpen at htok
        split at htok
        · -- startString matched
          rename_i info st' s' heq
          subst htok
          right
          obtain ⟨hst', -, -, -⟩ := startString_some_inv heq
          refine ⟨by rw [readString, readStringGo_fst]; simp, ?_⟩
          rcases readStringGo_state (st'.string.length - st'.pos) st' s' info with h | h <;>
            rw [readString, h, hst'] <;> split <;> rfl
        · unfold tokenChar at htok
          split at htok
          · -- peek none
            subst htok
            right
            exact ⟨by simp, ite_reset_stack _ _⟩
          · rename_i ch hpk
            obtain ⟨tl, hd⟩ := head?_some_ex hpk
            have hlt : st.pos < st.string.length := drop_cons_pos hd
            split at htok
            · -- comment
              subst htok
              right
              exact ⟨by simp, by split <;> rfl⟩
            · split at htok
              · -- comma
                subst htok
                right
                exact ⟨by simp, by split <;> rfl⟩
              · split at htok
                · -- delimiter
                  split at htok
                  · rename_i hopen
                    subst htok
                    left
                    refine ⟨by simp, by simp [next_pos_of_lt hlt], ch, tl, hd, ?_⟩
                    left
                    exact ⟨hopen, by split <;> rfl⟩
                  · rename_i hopen
                    subst htok
                    left
                    refine ⟨by simp, by simp [next_pos_of_lt hlt], ch, tl, hd, ?_⟩
                    right
                    exact ⟨hopen, by split <;> rfl⟩
                · split at htok
                  · -- annotation
                    subst htok
                    right
                    exact ⟨by simp, by split <;> rfl⟩
                  · unfold tokenOps at htok
                    split at htok
                    · -- multiCharOps
                      subst htok
                      right
                      exact ⟨by simp, by split <;> rfl⟩
                    · split at htok
                      · -- pairedOps
                        subst htok
                        right
                        exact ⟨by simp, by split <;> rfl⟩
                      · split at htok
                        · -- the & branch
                          subst htok
                          right
                          refine ⟨by simp, ?_⟩
                          show (match st.next.peek with
                            | some c2 =>
                              if c2 ≠ '&' ∧ identifierStart c2 then
                                { (if st.pos = 0 then resetLine s else s) with
                                    inSwap := true, afterDot := false }
                              else
                                { (if st.pos = 0 then resetLine s else s) with
                                    exprStart := true, macroEligible := true, afterDot := false }
                            | none =>
                              { (if st.pos = 0 then resetLine s else s) with
                                  exprStart := true, macroEligible := true,
                                  afterDot := false } : RavenState).macroLockStack
                            = s.macroLockStack
                          split
                          · split <;> (split <;> rfl)
                          · split <;> rfl
                        · split at htok
                          · -- singleOps
                            subst htok
                            right
                            exact ⟨by simp, by split <;> rfl⟩
                          · unfold tokenTail at htok
                            split at htok
                            · -- dot
                              split at htok
                              · subst htok
                                right
                                exact ⟨by simp, by split <;> rfl⟩
                              · subst htok
                                right
                                exact ⟨by simp, by split <;> rfl⟩
                            · split at htok
                              · -- identifier
                                split at htok
                                · subst htok
                                  right
                                  refine ⟨?_, by split <;> rfl⟩
                                  repeat' split
                                  all_goals simp
                                · subst htok
                                  right
                                  refine ⟨?_, by split <;> rfl⟩
                                  repeat' split
                                  all_goals simp
                              · split at htok
                                · -- operatorChar
                                  subst htok
                                  right
                                  exact ⟨by simp, by split <;> rfl⟩
                                · -- fallback
                                  subst htok
                                  right
                                  exact ⟨by simp, by split <;> rfl⟩

lemma runLine_stack (n : Nat) : ∀ (st : StringStream) (s : RavenState),
    (∀ k, 0 ≤ (s.macroLockStack.length : ℤ) +
      (((runLine n st s).1.take k).map bracketDelta).sum) →
    ((runLine n st s).2.macroLockStack.length : ℤ) =
      s.macroLockStack.length + ((runLine n st s).1.map bracketDelta).sum := by
  induction n with
  | zero => intro st s _; simp [runLine]
  | succ n ih =>
    intro st s hbal
    by_cases heol : st.string.length ≤ st.pos
    · simp [runLine, heol]
    · have hrw : runLine (n + 1) st s =
        (((token st s).1,
          (st.string.drop st.pos).take ((token st s).2.1.pos - st.pos)) ::
            (runLine n (token st s).2.1 (token st s).2.2).1,
         (runLine n (token st s).2.1 (token st s).2.2).2) := by
        simp [runLine, heol]
      rw [hrw]
      rw [hrw] at hbal
      have hb1 := hbal 1
      simp only [List.take_succ_cons, List.take_zero, List.map_cons, List.map_nil,
        List.sum_cons, List.sum_nil, Int.add_zero] at hb1
      have hstep : ((token st s).2.2.macroLockStack.length : ℤ) =
          s.macroLockStack.length +
            bracketDelta ((token st s).1,
              (st.string.drop st.pos).take ((token st s).2.1.pos - st.pos)) := by
        rcases token_stack st s (token st s) rfl with
          ⟨hb, hpos, c, tl, hd, hcase⟩ | ⟨hb, hstk⟩
        · have hev2 : (st.string.drop st.pos).take ((token st s).2.1.pos - st.pos) = [c] := by
            rw [hpos, hd]
            simp
          rcases hcase with ⟨hopen, hstk⟩ | ⟨hopen, hstk⟩
          · have hδ : bracketDelta ((token st s).1,
                (st.string.drop st.pos).take ((token st s).2.1.pos - st.pos)) = 1 := by
              rcases hopen with rfl | rfl | rfl <;> simp [bracketDelta, hb, hev2]
            rw [hδ, hstk]
            simp
          · have h1 : ¬(c = '(') := fun h => hopen (Or.inl h)
            have h2 : ¬(c = '[') := fun h => hopen (Or.inr (Or.inl h))
            have h3 : ¬(c = '{') := fun h => hopen (Or.inr (Or.inr h))
            have hδ : bracketDelta ((token st s).1,
                (st.string.drop st.pos).take ((token st s).2.1.pos - st.pos)) = -1 := by
              simp [bracketDelta, hb, hev2, h1, h2, h3]
            rw [hδ] at hb1 ⊢
            rw [hstk]
            have hlen : 1 ≤ s.macroLockStack.length := by omega
            have htl : s.macroLockStack.tail.length = s.macroLockStack.length - 1 :=
              List.length_tail _
            omega
        · have hδ : bracketDelta ((token st s).1,
              (st.string.drop st.pos).take ((token st s).2.1.pos - st.pos)) = 0 := by
            simp [bracketDelta, hb]
          rw [hδ, hstk]
          simp
      have ihres := ih (token st s).2.1 (token st s).2.2 (by
        intro k
        have := hbal (k + 1)
        simp only [List.take_succ_cons, List.map_cons, List.sum_cons] at this
        rw [hstep]
        omega)
      simp only [List.map_cons, List.sum_cons]
      rw [ihres, hstep]
      ring

lemma token_progress (st : StringStream) (s : RavenState)
    (h : st.pos < st.string.length)
    (hwf : ∀ info, s.string = some info → info.close ≠ []) :
    st.pos + 1 ≤ (token st s).2.1.pos := by
  cases hs : s.string with
  | some info =>
    rw [token_of_string_some hs]
    exact readString_progress h (hwf info hs)
  | none =>
    rw [token_of_string_none hs]
    unfold tokenMain tokenSpace
    split
    · rename_i hsp
      simpa using hsp
    · unfold tokenNum
      split
      · rename_i st' s' heq
        exact (readNumber_some_inv heq).2.1
      · unfold tokenStrOpen
        split
        · rename_i info st' s' heq
          obtain ⟨-, hst', -, -⟩ := startString_some_inv heq
          calc st.pos + 1 ≤ st'.pos := by rw [hst']; simp
            _ ≤ _ := by rw [readString]; exact readStringGo_pos_le _ _ _ _
        · unfold tokenChar
          split
          · rename_i hpk
            exfalso
            have hnil : st.string.drop st.pos = [] := by
              cases hdp : st.string.drop st.pos with
              | nil => rfl
              | cons a tla =>
                rw [StringStream.peek, hdp] at hpk
                simp at hpk
            have hlen := congrArg List.length hnil
            simp [List.length_drop] at hlen
            omega
          · rename_i ch hpk
            have hnp : st.next.pos = st.pos + 1 := next_pos_of_lt h
            split
            · -- comment
              simp [StringStream.skipToEnd]
              omega
            · split
              · -- comma
                simp [hnp]
              · split
                · -- delimiter
                  split <;> simp [hnp]
                · split
                  · -- annotation
                    simp [StringStream.eatWhile, next_string, hnp]
                  · unfold tokenOps
                    split
                    · -- multiCharOps
                      rename_i op heq
                      have hm := List.mem_of_find?_eq_some heq
                      simp [multiCharOps] at hm
                      subst hm
                      simp
                    · split
                      · -- pairedOps
                        rename_i op heq
                        have hm := List.mem_of_find?_eq_some heq
                        simp [pairedOps] at hm
                        rcases hm with rfl | rfl | rfl | rfl | rfl | rfl | rfl <;> simp
                      · split
                        · -- the & branch
                          simp [hnp]
                        · split
                          · -- singleOps
                            rename_i op heq
                            have hm := List.mem_of_find?_eq_some heq
                            simp [singleOps] at hm
                            rcases hm with
                              rfl | rfl | rfl | rfl | rfl | rfl | rfl | rfl | rfl | rfl | rfl <;>
                              simp
                          · unfold tokenTail
                            repeat' split
                            all_goals simp [StringStream.eatWhile, next_string, hnp]

lemma token_string_out (st : StringStream) (s : RavenState)
    (r : Option String × StringStream × RavenState) (htok : token st s = r) :
    r.2.2.string = s.string ∨ r.2.2.string = none ∨
    ∃ info, r.2.2.string = some info ∧
      info.close = info.quote :: List.replicate info.slashes '\\' := by
  cases hs : s.string with
  | some info =>
    rw [token_of_string_some hs] at htok
    subst htok
    rcases readStringGo_state (st.string.length - st.pos) st s info with h | h <;>
      rw [readString, h]
    · exact Or.inl hs
    · exact Or.inr (Or.inl rfl)
  | none =>
    rw [token_of_string_none hs] at htok
    unfold tokenMain tokenSpace at htok
    split at htok
    · subst htok
      exact Or.inl (by split <;> simpa [resetLine] using hs)
    · unfold tokenNum at htok
      split at htok
      · rename_i st' s' heq
        subst htok
        left
        rw [show s' = numState (if st.pos = 0 then resetLine s else s) from
          (readNumber_some_inv heq).1]
        split <;> simpa [numState, resetLine] using hs
      · unfold tokenStrOpen at htok
        split at htok
        · rename_i info st' s' heq
          subst htok
          obtain ⟨hst', -, hclose, -⟩ := startString_some_inv heq
          rcases readStringGo_state (st'.string.length - st'.pos) st' s' info with h | h <;>
            rw [readString, h]
          · right; right
            exact ⟨info, by rw [hst'], hclose⟩
          · right; left
            rfl
        · unfold tokenChar at htok
          split at htok
          · subst htok
            exact Or.inl (by split <;> simpa [resetLine] using hs)
          · split at htok
            · subst htok
              exact Or.inl (by split <;> simpa [resetLine] using hs)
            · split at htok
              · subst htok
                exact Or.inl (by split <;> simpa [resetLine] using hs)
              · split at htok
                · split at htok
                  · subst htok
                    exact Or.inl (by split <;> simpa [resetLine] using hs)
                  · subst htok
                    exact Or.inl (by split <;> simpa [resetLine] using hs)
                · split at htok
                  · subst htok
                    exact Or.inl (by split <;> simpa [resetLine] using hs)
                  · unfold tokenOps at htok
                    split at htok
                    · subst htok
                      exact Or.inl (by split <;> simpa [resetLine] using hs)
                    · split at htok
                      · subst htok
                        exact Or.inl (by split <;> simpa [resetLine] using hs)
                      · split at htok
                        · subst htok
                          left
                          show (match st.next.peek with
                            | some c2 =>
                              if c2 ≠ '&' ∧ identifierStart c2 then
                                { (if st.pos = 0 then resetLine s else s) with
                                    inSwap := true, afterDot := false }
                              else
                                { (if st.pos = 0 then resetLine s else s) with
                                    exprStart := true, macroEligible := true, afterDot := false }
                            | none =>
                              { (if st.pos = 0 then resetLine s else s) with
                                  exprStart := true, macroEligible := true,
                                  afterDot := false } : RavenState).string = none
                          split
                          · split <;> (split <;> simpa [resetLine] using hs)
                          · split <;> simpa [resetLine] using hs
                        · split at htok
                          · subst htok
                            exact Or.inl (by split <;> simpa [resetLine] using hs)
                          · unfold tokenTail at htok
                            split at htok
                            · split at htok
                              · subst htok
                                exact Or.inl (by split <;> simpa [resetLine] using hs)
                              · subst htok
                                exact Or.inl (by split <;> simpa [resetLine] using hs)
                            · split at htok
                              · split at htok
                                · subst htok
                                  exact Or.inl (by split <;> simpa [resetLine] using hs)
                                · subst htok
                                  exact Or.inl (by split <;> simpa [resetLine] using hs)
                              · split at htok
                                · subst htok
                                  exact Or.inl (by split <;> simpa [resetLine] using hs)
                                · subst htok
                                  exact Or.inl (by split <;> simpa [resetLine] using hs)

lemma token_wf (st : StringStream) (s : RavenState)
    (hwf : ∀ info, s.string = some info → info.close ≠ []) :
    ∀ info, (token st s).2.2.string = some info → info.close ≠ [] := by
  intro info hinfo
  rcases token_string_out st s _ rfl with h | h | ⟨info', h1, h2⟩
  · rw [h] at hinfo
    exact hwf info hinfo
  · rw [h] at hinfo
    cases hinfo
  · rw [h1] at hinfo
    rw [Option.some_inj] at hinfo
    subst hinfo
    rw [h2]
    simp

lemma shouldKeyword_flags {st : StringStream} {s : RavenState}
    (h : shouldKeyword st s = true) :
    s.exprStart = true ∧ s.macroEligible = true ∧ s.afterDot = false ∧
    s.inSwap = false ∧ s.macroLocked = false := by
  unfold shouldKeyword at h
  split at h
  · cases h
  · rename_i hg
    have hg' : (!s.exprStart || !s.macroEligible || s.afterDot || s.inSwap ||
        s.macroLocked) = false := by
      cases hb : (!s.exprStart || !s.macroEligible || s.afterDot || s.inSwap || s.macroLocked)
      · rfl
      · exact absurd hb hg
    simp at hg'
    obtain ⟨⟨⟨⟨h1, h2⟩, h3⟩, h4⟩, h5⟩ := hg'
    exact ⟨h1, h2, h3, h4, h5⟩

lemma shouldKeyword_false_of_imm {st : StringStream} {s : RavenState}
    (h : st.peek = some '(' ∨ st.peek = some '[' ∨ st.peek = some '.') :
    shouldKeyword st s = false := by
  unfold shouldKeyword
  repeat' split
  all_goals first
    | rfl
    | exact absurd h (by assumption)

lemma shouldKeyword_false_of_stringStart {st : StringStream} {s : RavenState}
    (hss : isStringStart (st.string.drop st.pos) = true) :
    shouldKeyword st s = false := by
  have hne := isStringStart_ne_nil hss
  have hsome : st.peek.isSome = true := by
    cases hdp : st.string.drop st.pos with
    | nil => exact absurd hdp hne
    | cons a tla => simp [StringStream.peek, hdp]
  unfold shouldKeyword
  repeat' split
  all_goals first
    | rfl
    | exact absurd (by simp [hsome, hss] :
        (st.peek.isSome && isStringStart (st.string.drop st.pos)) = true) (by assumption)

lemma stream_set_pos_congr {a b : StringStream} (h : a.string = b.string) (x : Nat) :
    ({ a with pos := x } : StringStream) = { b with pos := x } := by
  cases a
  cases b
  simp_all

lemma escAdvance_pos_le_length {st : StringStream} {info : StringState}
    (hm : escMatches info.escape (st.string.drop st.pos) = true)
    (hp : st.pos ≤ st.string.length) :
    (escAdvance st info).pos ≤ st.string.length := by
  cases he : info.escape with
  | none => rw [he] at hm; simp [escMatches] at hm
  | some e =>
    rw [he] at hm
    simp only [escMatches] at hm
    have hl : e.length ≤ (st.string.drop st.pos).length :=
      List.IsPrefix.length_le (List.isPrefixOf_iff_prefix.mp hm)
    rw [List.length_drop] at hl
    simp only [escAdvance, escLen, he]
    split
    · simp
      omega
    · rename_i hx
      simp only [StringStream.next]
      split
      · simp
        omega
      · simp at hx ⊢
        omega

lemma escAdvance_pos_succ {st : StringStream} {info : StringState}
    (ht : escTruthy info.escape = true) :
    st.pos + 1 ≤ (escAdvance st info).pos := by
  have hel : 1 ≤ escLen info.escape := by
    cases he : info.escape with
    | none => rw [he] at ht; simp [escTruthy] at ht
    | some e =>
      rw [he] at ht
      simp [escTruthy, List.isEmpty_iff] at ht
      have := List.length_pos.mpr ht
      simp [escLen]
      omega
  calc st.pos + 1 ≤ st.pos + escLen info.escape := by omega
    _ ≤ _ := escAdvance_pos_ge

lemma readStringGo_cases (f : Nat) : ∀ (st : StringStream) (s : RavenState) (info : StringState),
    st.string.length - st.pos ≤ f → st.pos ≤ st.string.length →
    ((∃ p, st.pos ≤ p ∧ info.close.isPrefixOf (st.string.drop p) = true ∧
        readStringGo f st s info = (some "string", { st with pos := p + info.close.length },
          { s with string := none, exprStart := false, macroEligible := false })) ∨
      readStringGo f st s info = (some "string", { st with pos := st.string.length }, s)) := by
  induction f with
  | zero =>
    intro st s info hf hp
    right
    show (some "string", st, s) = _
    have hst : st = { st with pos := st.string.length } := by
      cases st with
      | mk a b =>
        simp at hf hp ⊢
        omega
    rw [← hst]
  | succ f ih =>
    intro st s info hf hp
    simp only [readStringGo]
    by_cases heol : st.string.length ≤ st.pos
    · rw [if_pos heol]
      right
      have hst : st = { st with pos := st.string.length } := by
        cases st with
        | mk a b =>
          simp at heol hp ⊢
          omega
      rw [← hst]
    · rw [if_neg heol]
      by_cases hclose : info.close.isPrefixOf (st.string.drop st.pos) = true
      · rw [if_pos hclose]
        exact Or.inl ⟨st.pos, Nat.le_refl _, hclose, rfl⟩
      · rw [if_neg hclose]
        by_cases hesc : (info.raw = false ∧ escTruthy info.escape = true ∧
            escMatches info.escape (st.string.drop st.pos) = true)
        · rw [if_pos hesc]
          have hstr : (escAdvance st info).string = st.string := escAdvance_string
          have hge : st.pos + 1 ≤ (escAdvance st info).pos := escAdvance_pos_succ hesc.2.1
          have hle : (escAdvance st info).pos ≤ st.string.length :=
            escAdvance_pos_le_length hesc.2.2 hp
          rcases ih (escAdvance st info) s info (by rw [hstr]; omega) (by rw [hstr]; omega) with
            ⟨p, hp1, hp2, hp3⟩ | hres
          · left
            refine ⟨p, by omega, by rwa [hstr] at hp2, ?_⟩
            rw [hp3, stream_set_pos_congr hstr]
          · right
            rw [hres, hstr]
        · rw [if_neg hesc]
          have hstr : st.next.string = st.string := next_string
          have hge : st.next.pos = st.pos + 1 := next_pos_of_lt (by omega)
          rcases ih st.next s info (by rw [hstr]; omega) (by rw [hstr]; omega) with
            ⟨p, hp1, hp2, hp3⟩ | hres
          · left
            refine ⟨p, by omega, by rwa [hstr] at hp2, ?_⟩
            rw [hp3, stream_set_pos_congr hstr]
          · right
            rw [hres, hstr]

lemma isPrefixOf_nil_false {l : List Char} (hc : l ≠ []) :
    l.isPrefixOf ([] : List Char) = false := by
  cases hc2 : l with
  | nil => exact absurd hc2 hc
  | cons a t => rfl

lemma readStringGo_raw (f : Nat) : ∀ (st : StringStream) (s : RavenState) (info : StringState),
    info.raw = true → info.close ≠ [] →
    st.string.length - st.pos ≤ f → st.pos ≤ st.string.length →
    (∀ i, firstIdx info.close (st.string.drop st.pos) = some i →
      readStringGo f st s info =
        (some "string", { st with pos := st.pos + i + info.close.length },
         { s with string := none, exprStart := false, macroEligible := false })) ∧
    (firstIdx info.close (st.string.drop st.pos) = none →
      readStringGo f st s info = (some "string", { st with pos := st.string.length }, s)) := by
  induction f with
  | zero =>
    intro st s info hraw hc hf hp
    have hdp : st.string.drop st.pos = [] := List.drop_eq_nil_of_le (by omega)
    have hfi : firstIdx info.close (st.string.drop st.pos) = none := by
      rw [hdp]
      simp [firstIdx, isPrefixOf_nil_false hc]
    constructor
    · intro i hi
      rw [hfi] at hi
      cases hi
    · intro _
      show (some "string", st, s) = _
      have hst : st = { st with pos := st.string.length } := by
        cases st with
        | mk a b =>
          simp at hf hp ⊢
          omega
      rw [← hst]
  | succ f ih =>
    intro st s info hraw hc hf hp
    by_cases heol : st.string.length ≤ st.pos
    · have hdp : st.string.drop st.pos = [] := List.drop_eq_nil_of_le heol
      have hfi : firstIdx info.close (st.string.drop st.pos) = none := by
        rw [hdp]
        simp [firstIdx, isPrefixOf_nil_false hc]
      constructor
      · intro i hi
        rw [hfi] at hi
        cases hi
      · intro _
        simp only [readStringGo]
        rw [if_pos heol]
        have hst : st = { st with pos := st.string.length } := by
          cases st with
          | mk a b =>
            simp at heol hp ⊢
            omega
        rw [← hst]
    · obtain ⟨c, tl, hdp⟩ : ∃ c tl, st.string.drop st.pos = c :: tl := by
        cases hdp : st.string.drop st.pos with
        | nil =>
          have := congrArg List.length hdp
          simp [List.length_drop] at this
          omega
        | cons a t => exact ⟨a, t, rfl⟩
      by_cases hclose : info.close.isPrefixOf (st.string.drop st.pos) = true
      · have hfi : firstIdx info.close (st.string.drop st.pos) = some 0 := by
          rw [hdp]
          rw [hdp] at hclose
          simp [firstIdx, hclose]
        constructor
        · intro i hi
          rw [hfi] at hi
          rw [Option.some_inj] at hi
          subst hi
          simp only [readStringGo]
          rw [if_neg heol, if_pos hclose]
          simp
        · intro hi
          rw [hfi] at hi
          cases hi
      · have hstr : st.next.string = st.string := next_string
        have hge : st.next.pos = st.pos + 1 := next_pos_of_lt (by omega)
        have hdrop2 : st.next.string.drop st.next.pos = tl := by
          rw [hstr, hge]
          exact drop_succ_of_cons hdp
        have hrec := ih st.next s info hraw hc (by rw [hstr, hge]; omega)
          (by rw [hstr, hge]; omega)
        have hstep : readStringGo (f + 1) st s info = readStringGo f st.next s info := by
          simp only [readStringGo]
          rw [if_neg heol, if_neg hclose, if_neg (by simp [hraw])]
        have hmap : firstIdx info.close (st.string.drop st.pos) =
            (firstIdx info.close tl).map (· + 1) := by
          rw [hdp]
          rw [hdp] at hclose
          simp [firstIdx, hclose]
        constructor
        · intro i hi
          rw [hmap] at hi
          obtain ⟨j, hj, hji⟩ := Option.map_eq_some'.mp hi
          have hres := hrec.1 j (by rw [hdrop2]; exact hj)
          rw [hstep, hres, stream_set_pos_congr hstr]
          have : st.next.pos + j + info.close.length = st.pos + i + info.close.length := by
            omega
          rw [this]
        · intro hi
          rw [hmap] at hi
          have hj : firstIdx info.close tl = none := Option.map_eq_none'.mp hi
          have hres := hrec.2 (by rw [hdrop2]; exact hj)
          rw [hstep, hres, hstr]

lemma class_ne' {p : Char → Bool} {c x : Char} (hc : p c = false) (hx : p x = true) : c ≠ x := by
  intro h
  subst h
  rw [hc] at hx
  simp at hx

lemma token_open_delim {st : StringStream} {s : RavenState} {c : Char} {tl : List Char}
    (hs : s.string = none) (hd : st.string.drop st.pos = c :: tl)
    (hc : c = '(' ∨ c = '[' ∨ c = '{') :
    token st s = (some "bracket", { st with pos := st.pos + 1 },
      { (if st.pos = 0 then resetLine s else s) with
          macroLockStack := (if st.pos = 0 then resetLine s else s).macroLocked ::
            (if st.pos = 0 then resetLine s else s).macroLockStack,
          macroLocked := false, exprStart := true, macroEligible := true,
          afterDot := false, inSwap := false }) := by
  rcases hc with rfl | rfl | rfl <;>
  · have hstart : ∀ s' : RavenState, startString st s' = none := fun s' =>
      startString_none_iff.mpr (by
        rw [hd]
        exact isStringStart_cons_false (by decide) (by decide))
    rw [token_of_string_none hs]
    simp only [tokenMain, tokenSpace, tokenNum, tokenStrOpen, tokenChar,
      eatSpace_of_not_ws hd (by decide), lt_self_iff_false, if_false,
      readNumber_none hd (by decide) (by decide) (by decide) (by decide),
      hstart, peek_of_cons hd, next_of_cons hd]
    simp
    intro h'
    exact absurd h' (by decide)

lemma token_close_delim {st : StringStream} {s : RavenState} {c : Char} {tl : List Char}
    (hs : s.string = none) (hd : st.string.drop st.pos = c :: tl)
    (hc : c = ')' ∨ c = ']' ∨ c = '}') :
    token st s = (some "bracket", { st with pos := st.pos + 1 },
      { (if st.pos = 0 then resetLine s else s) with
          macroLocked := (if st.pos = 0 then resetLine s else s).macroLockStack.headD false,
          macroLockStack := (if st.pos = 0 then resetLine s else s).macroLockStack.tail,
          exprStart := false, macroEligible := false,
          afterDot := false, inSwap := false }) := by
  rcases hc with rfl | rfl | rfl <;>
  · have hstart : ∀ s' : RavenState, startString st s' = none := fun s' =>
      startString_none_iff.mpr (by
        rw [hd]
        exact isStringStart_cons_false (by decide) (by decide))
    rw [token_of_string_none hs]
    simp only [tokenMain, tokenSpace, tokenNum, tokenStrOpen, tokenChar,
      eatSpace_of_not_ws hd (by decide), lt_self_iff_false, if_false,
      readNumber_none hd (by decide) (by decide) (by decide) (by decide),
      hstart, peek_of_cons hd, next_of_cons hd]
    simp
    intro h'
    exact absurd h' (by decide)

lemma readNumber_none_minus {st : StringStream} {s : RavenState} {tl : List Char}
    (hd : st.string.drop st.pos = '-' :: tl) (hes : s.exprStart = false) :
    readNumber st s = none := by
  unfold readNumber
  rw [hd]
  simp [matchHex_cons_none (show ('-' : Char) ≠ '0' from by decide),
    matchUnsigned_cons_none (show isDigitCh '-' = false from by decide),
    matchDotNum_cons_none (show ('-' : Char) ≠ '.' from by decide), hes]

lemma singleOps_minus {tl : List Char} :
    singleOps.find? (fun op => op.isPrefixOf ('-' :: tl)) = some ['-'] := by
  simp [singleOps, List.isPrefixOf]

lemma token_minus_op {st : StringStream} {s : RavenState} {tl : List Char}
    (hs : s.string = none) (hd : st.string.drop st.pos = '-' :: tl)
    (hpos : st.pos ≠ 0) (hes : s.exprStart = false) :
    token st s = (some "operator", { st with pos := st.pos + 1 },
      { s with exprStart := true, macroEligible := true,
               afterDot := false, inSwap := false }) := by
  have hstart : ∀ s' : RavenState, startString st s' = none := fun s' =>
    startString_none_iff.mpr (by
      rw [hd]
      exact isStringStart_cons_false (by decide) (by decide))
  rw [token_of_string_none hs]
  simp only [tokenMain, tokenSpace, tokenNum, tokenStrOpen, tokenChar, tokenOps,
    eatSpace_of_not_ws hd (by decide), lt_self_iff_false, if_false, hpos,
    readNumber_none_minus hd hes,
    hstart, peek_of_cons hd, next_of_cons hd, hd,
    multiOps_none (show ('-' : Char) ≠ '.' from by decide),
    pairedOps_none (show ('-' : Char) ≠ '=' from by decide)
      (show ('-' : Char) ≠ '!' from by decide) (show ('-' : Char) ≠ '>' from by decide)
      (show ('-' : Char) ≠ '<' from by decide) (show ('-' : Char) ≠ '&' from by decide)
      (show ('-' : Char) ≠ '|' from by decide),
    singleOps_minus]
  simp
  decide

lemma matchSigned_cons_digit {d : Char} {tl' : List Char} (hdd : isDigitCh d = true) :
    matchSigned ('-' :: d :: tl') =
      some (1 + ((d :: tl').takeWhile isDigitCh).length +
        fracLen ((d :: tl').drop ((d :: tl').takeWhile isDigitCh).length)) := by
  simp [matchSigned, List.takeWhile_cons, hdd]

lemma token_minus_num {st : StringStream} {s : RavenState} {d : Char} {tl' : List Char}
    (hs : s.string = none) (hd : st.string.drop st.pos = '-' :: d :: tl')
    (hdd : isDigitCh d = true)
    (hes : (if st.pos = 0 then resetLine s else s).exprStart = true) :
    ∃ n, matchSigned ('-' :: d :: tl') = some n ∧
      token st s = (some "number", { st with pos := st.pos + n },
        numState (if st.pos = 0 then resetLine s else s)) := by
  refine ⟨_, matchSigned_cons_digit hdd, ?_⟩
  rw [token_of_string_none hs]
  simp only [tokenMain, tokenSpace, tokenNum, eatSpace_of_not_ws hd (by decide),
    lt_self_iff_false, if_false, readNumber, hes, if_true, hd,
    matchHex_cons_none (show ('-' : Char) ≠ '0' from by decide),
    matchSigned_cons_digit hdd]

lemma token_fallback {st : StringStream} {s : RavenState} {c : Char} {tl : List Char}
    (hs : s.string = none) (hd : st.string.drop st.pos = c :: tl)
    (hws : jsWhitespace c = false) (hdg : isDigitCh c = false)
    (hss : isStringStart (st.string.drop st.pos) = false)
    (hh : c ≠ '#') (hcm : c ≠ ',') (hdl : isDelimiter c = false) (hat : c ≠ '@')
    (hop : operatorChar c = false) (hdot : c ≠ '.') (hid : identifierStart c = false) :
    token st s = (none, { st with pos := st.pos + 1 },
      { (if st.pos = 0 then resetLine s else s) with
          exprStart := false, macroEligible := false,
          afterDot := false, inSwap := false }) := by
  have h0 : c ≠ '0' := class_ne' hdg (by decide)
  have hm : c ≠ '-' := class_ne' hop (by decide)
  have hstart : ∀ s' : RavenState, startString st s' = none := fun s' =>
    startString_none_iff.mpr hss
  rw [token_of_string_none hs]
  simp only [tokenMain, tokenSpace, tokenNum, tokenStrOpen, tokenChar, tokenOps, tokenTail,
    eatSpace_of_not_ws hd hws, lt_self_iff_false, if_false,
    readNumber_none hd h0 hm hdg hdot,
    hstart, peek_of_cons hd, next_of_cons hd, hd,
    multiOps_none hdot,
    pairedOps_none (class_ne' hop (by decide)) (class_ne' hop (by decide))
      (class_ne' hop (by decide)) (class_ne' hop (by decide))
      (class_ne' hop (by decide)) (class_ne' hop (by decide)),
    singleOps_none (class_ne' hop (by decide)) (class_ne' hop (by decide)) hm
      (class_ne' hop (by decide)) (class_ne' hop (by decide)) (class_ne' hop (by decide))
      (class_ne' hop (by decide)) (class_ne' hop (by decide)) (class_ne' hop (by decide))
      (class_ne' hop (by decide)) (class_ne' hop (by decide)),
    hh, hcm, hat, hdl, hdot, hid, hop]
  simp
  exact class_ne' hop (by decide)

lemma bsRun_replicate_append {k : Nat} {q : Char} {rest : List Char}
    (hq : (q == '\\') = false) :
    bsRun (List.replicate k '\\' ++ q :: rest) = k := by
  induction k with
  | zero => simp [bsRun, List.takeWhile_cons, hq]
  | succ k ih =>
    rw [List.replicate_succ, List.cons_append]
    simp only [bsRun, List.takeWhile_cons] at ih ⊢
    rw [if_pos (by decide)]
    simp only [List.length_cons, ih]

lemma quote_ne_backslash {q : Char} (hq : isQuoteCh q = true) : (q == '\\') = false := by
  simp only [isQuoteCh, Bool.or_eq_true, beq_iff_eq] at hq
  rcases hq with rfl | rfl <;> decide

lemma startString_open {st : StringStream} {s : RavenState} {k : Nat} {q : Char}
    {rest : List Char} (hq : isQuoteCh q = true)
    (hd : st.string.drop st.pos = List.replicate k '\\' ++ q :: rest) :
    startString st s = some
      ({ quote := q, slashes := k, raw := q == '\x60',
         close := q :: List.replicate k '\\',
         escape := if q == '\x60' then none else some (List.replicate (max 1 k) '\\') },
       { st with pos := st.pos + k + 1 },
       { s with
           string := some { quote := q, slashes := k, raw := q == '\x60',
                            close := q :: List.replicate k '\\',
                            escape := if q == '\x60' then none
                                      else some (List.replicate (max 1 k) '\\') },
           exprStart := false, macroEligible := false,
           afterDot := false, inSwap := false }) := by
  have hbs : bsRun (st.string.drop st.pos) = k := by
    rw [hd]
    exact bsRun_replicate_append (quote_ne_backslash hq)
  have hdropk : ∀ (j : Nat) (rest' : List Char),
      (List.replicate j '\\' ++ q :: rest').drop j = q :: rest' := by
    intro j
    induction j with
    | zero => intro rest'; simp
    | succ j ih => intro rest'; simpa [List.replicate_succ] using ih rest'
  have hhead : ((st.string.drop st.pos).drop k).head? = some q := by
    rw [hd, hdropk]
    rfl
  simp only [startString, hbs, hhead]
  rw [if_pos hq]

lemma token_string_carry {st : StringStream} {s : RavenState} {info : StringState}
    (hs : s.string = some info) (hp : st.pos ≤ st.string.length) :
    (token st s).1 = some "string" ∧
    ((token st s).2.2 = { s with string := none, exprStart := false, macroEligible := false } ∨
      token st s = (some "string", { st with pos := st.string.length }, s)) := by
  rw [token_of_string_some hs]
  refine ⟨by rw [readString]; exact readStringGo_fst _ _ _ _, ?_⟩
  rcases readStringGo_cases (st.string.length - st.pos) st s info (Nat.le_refl _) hp with
    ⟨p, -, -, hres⟩ | hres
  · left
    rw [readString, hres]
  · right
    rw [readString, hres]

/-! ## Claims -/

/-- C1: for every identifier token (with the line-start reset, applied before
the decision when the cursor is at column 0, folded into the inspected
state), keyword promotion requires `exprStart` and `macroEligible` true and
`afterDot`, `inSwap`, `macroLocked` false; on promotion the lexer sets
`exprStart := true`, `macroEligible := false`, `macroLocked := true`; on
non-promotion it sets `exprStart := false`, `macroEligible := false`; in both
cases `afterDot` and `inSwap` are cleared. -/
theorem claim_C1_keyword_promotion (st : StringStream) (s : RavenState) (c : Char)
    (tl : List Char) (hs : s.string = none) (hd : st.string.drop st.pos = c :: tl)
    (hc : identifierStart c = true) :
    ((token st s).1 = some "keyword" →
      ((if st.pos = 0 then resetLine s else s).exprStart = true ∧
       (if st.pos = 0 then resetLine s else s).macroEligible = true ∧
       (if st.pos = 0 then resetLine s else s).afterDot = false ∧
       (if st.pos = 0 then resetLine s else s).inSwap = false ∧
       (if st.pos = 0 then resetLine s else s).macroLocked = false) ∧
      (token st s).2.2 = { (if st.pos = 0 then resetLine s else s) with
        exprStart := true, macroEligible := false, macroLocked := true,
        afterDot := false, inSwap := false }) ∧
    ((token st s).1 ≠ some "keyword" →
      (token st s).2.2 = { (if st.pos = 0 then resetLine s else s) with
        exprStart := false, macroEligible := false,
        afterDot := false, inSwap := false }) := by
  rw [token_ident hs hd hc]
  by_cases hk : shouldKeyword (st.next.eatWhile identifierPart)
      (if st.pos = 0 then resetLine s else s) = true
  · rw [if_pos hk]
    constructor
    · intro _
      exact ⟨shouldKeyword_flags hk, rfl⟩
    · intro hne
      exact absurd rfl hne
  · rw [if_neg hk]
    constructor
    · intro hkw
      exfalso
      revert hkw
      repeat' split
      all_goals simp
    · intro _
      rfl

/-- Witness for C1 at `foo bar` (promoted: `foo` becomes a keyword and the
macro lock engages). -/
theorem claim_C1_keyword_promotion_witness :
    (token ⟨"foo bar".toList, 0⟩ startState).1 = some "keyword" ∧
    (token ⟨"foo bar".toList, 0⟩ startState).2.2.macroLocked = true := by
  have h := claim_C1_keyword_promotion ⟨"foo bar".toList, 0⟩ startState 'f'
    "oo bar".toList rfl rfl (by decide)
  have hk : (token ⟨"foo bar".toList, 0⟩ startState).1 = some "keyword" := by decide
  refine ⟨hk, ?_⟩
  rw [(h.1 hk).2]

/-- C5: keyword promotion is refused when the character immediately after the
consumed identifier run is `(`, `[` or `.`; in particular in `foo(bar)` the
identifier `foo` is classified as a plain variable. -/
theorem claim_C5_call_refusal (st : StringStream) (s : RavenState)
    (h : st.peek = some '(' ∨ st.peek = some '[' ∨ st.peek = some '.') :
    shouldKeyword st s = false ∧
    (token ⟨"foo(bar)".toList, 0⟩ startState).1 = some "variableName" :=
  ⟨shouldKeyword_false_of_imm h, by decide⟩

/-- Witness for C5 at the position just after `foo` in `foo(bar)`. -/
theorem claim_C5_call_refusal_witness :
    shouldKeyword ⟨"foo(bar)".toList, 3⟩ startState = false ∧
    (token ⟨"foo(bar)".toList, 0⟩ startState).1 = some "variableName" :=
  claim_C5_call_refusal ⟨"foo(bar)".toList, 3⟩ startState (Or.inl (by decide))

/-- C6: with an open string context, `token` delegates to `readString`
without applying the line-start reset; the call yields category `string`,
and either the close was found (context reset to null) or the whole line was
consumed with the state — context, flags and stack — carried over entirely
unchanged, so the next line resumes in the same string with the same close
and escape sequences. -/
theorem claim_C6_string_carry (st : StringStream) (s : RavenState) (info : StringState)
    (hs : s.string = some info) (hp : st.pos ≤ st.string.length) :
    token st s = readString st s info ∧
    (token st s).1 = some "string" ∧
    ((token st s).2.2 = { s with string := none, exprStart := false, macroEligible := false } ∨
      token st s = (some "string", { st with pos := st.string.length }, s)) :=
  ⟨token_of_string_some hs, (token_string_carry hs hp).1, (token_string_carry hs hp).2⟩

/-- Witness for C6: an unterminated `"` string swallows the whole line `abc`
and leaves the state untouched. -/
theorem claim_C6_string_carry_witness :
    (token ⟨['a', 'b', 'c'], 0⟩
      { string := some ⟨'"', 0, false, ['"'], some ['\\']⟩, exprStart := false,
        macroEligible := false, afterDot := false, inSwap := false,
        macroLocked := false, macroLockStack := [] }).1 = some "string" ∧
    (token ⟨['a', 'b', 'c'], 0⟩
      { string := some ⟨'"', 0, false, ['"'], some ['\\']⟩, exprStart := false,
        macroEligible := false, afterDot := false, inSwap := false,
        macroLocked := false, macroLockStack := [] }).2.2 =
      { string := some ⟨'"', 0, false, ['"'], some ['\\']⟩, exprStart := false,
        macroEligible := false, afterDot := false, inSwap := false,
        macroLocked := false, macroLockStack := [] } := by
  have h := claim_C6_string_carry ⟨['a', 'b', 'c'], 0⟩
    { string := some ⟨'"', 0, false, ['"'], some ['\\']⟩, exprStart := false,
      macroEligible := false, afterDot := false, inSwap := false,
      macroLocked := false, macroLockStack := [] }
    ⟨'"', 0, false, ['"'], some ['\\']⟩ rfl (by decide)
  exact ⟨h.2.1, by decide⟩

/-- C7: a minus sign directly followed by digits is a single number token
exactly when `exprStart` holds at that position (after the line-start reset
when at column 0); with `exprStart` false the same minus sign is an operator
token, so a binary subtraction is never read as a negative literal. -/
theorem claim_C7_signed_number (st : StringStream) (s : RavenState) (d : Char)
    (tl' : List Char) (hs : s.string = none)
    (hd : st.string.drop st.pos = '-' :: d :: tl') (hdd : isDigitCh d = true) :
    ((if st.pos = 0 then resetLine s else s).exprStart = true →
      ∃ n, matchSigned ('-' :: d :: tl') = some n ∧
        token st s = (some "number", { st with pos := st.pos + n },
          numState (if st.pos = 0 then resetLine s else s))) ∧
    ((if st.pos = 0 then resetLine s else s).exprStart = false →
      token st s = (some "operator", { st with pos := st.pos + 1 },
        { s with exprStart := true, macroEligible := true,
                 afterDot := false, inSwap := false })) := by
  constructor
  · intro hes
    exact token_minus_num hs hd hdd hes
  · intro hes
    by_cases hp : st.pos = 0
    · rw [if_pos hp] at hes
      simp [resetLine] at hes
    · rw [if_neg hp] at hes
      exact token_minus_op hs hd hp hes

/-- Witness for C7: `-1` at expression start is one number token; after an
identifier (expression start false) the minus in `a-1` is an operator. -/
theorem claim_C7_signed_number_witness :
    (token ⟨['-', '1'], 0⟩ startState).1 = some "number" ∧
    (token ⟨['a', '-', '1'], 1⟩
      { string := none, exprStart := false, macroEligible := false, afterDot := false,
        inSwap := false, macroLocked := false, macroLockStack := [] }).1 =
      some "operator" := by
  have h1 := claim_C7_signed_number ⟨['-', '1'], 0⟩ startState '1' [] rfl rfl (by decide)
  obtain ⟨n, -, htok⟩ := h1.1 (by decide)
  have h2 := claim_C7_signed_number ⟨['a', '-', '1'], 1⟩
    { string := none, exprStart := false, macroEligible := false, afterDot := false,
      inSwap := false, macroLocked := false, macroLockStack := [] } '1' [] rfl rfl (by decide)
  have htok2 := h2.2 (by decide)
  rw [htok, htok2]
  exact ⟨rfl, rfl⟩

/-- C9: forward progress.  On every reachable state (the string context, when
present, was built by `startString` and therefore has a nonempty close
sequence — the third conjunct shows this wellformedness is preserved by
`token`, and it holds of `startState` trivially), a `token` call with
non-empty remaining input consumes at least one character, and at end of
line — the only remaining situation — it consumes nothing. -/
theorem claim_C9_progress (st : StringStream) (s : RavenState)
    (hwf : ∀ info, s.string = some info → info.close ≠ []) :
    (st.pos < st.string.length → st.pos + 1 ≤ (token st s).2.1.pos) ∧
    (st.string.length ≤ st.pos → (token st s).2.1.pos = st.pos) ∧
    (∀ info, (token st s).2.2.string = some info → info.close ≠ []) :=
  ⟨fun h => token_progress st s h hwf,
   fun h => token_pos_eol h,
   token_wf st s hwf⟩

/-- Witness for C9 on the line `ab` from the initial state. -/
theorem claim_C9_progress_witness :
    (0 : Nat) + 1 ≤ (token ⟨['a', 'b'], 0⟩ startState).2.1.pos := by
  have h := claim_C9_progress ⟨['a', 'b'], 0⟩ startState (by
    intro info hinfo
    simp [startState] at hinfo)
  exact h.1 (by decide)

/-- C10: `blankLine` only resets the five scalar flags (`exprStart` and
`macroEligible` to true, `afterDot`, `inSwap`, `macroLocked` to false) and
leaves `string` and `macroLockStack` untouched, so a blank line neither
closes an open string nor discards saved lock values. -/
theorem claim_C10_blankLine_frame (s : RavenState) :
    blankLine s = { s with exprStart := true, macroEligible := true, afterDot := false,
                           inSwap := false, macroLocked := false } ∧
    (blankLine s).string = s.string ∧
    (blankLine s).macroLockStack = s.macroLockStack :=
  ⟨rfl, rfl, rfl⟩

/-- C2: bracket discipline of `macroLockStack`.  (i) An opening bracket
pushes the current `macroLocked` (after the line-start reset when at column
0) and clears it; (ii) a closing bracket pops the stack into `macroLocked` —
`headD false`, so an empty stack degrades to `false` instead of an error —
and drops the top; (iii) running a line from a state with an empty stack,
when the recorded bracket events are prefix-balanced, the stack length
equals the current open-bracket depth (the sum of the bracket deltas), and
is empty when the depth returns to zero. -/
theorem claim_C2_bracket_stack :
    (∀ (st : StringStream) (s : RavenState) (c : Char) (tl : List Char),
      s.string = none → st.string.drop st.pos = c :: tl →
      (c = '(' ∨ c = '[' ∨ c = '{') →
      token st s = (some "bracket", { st with pos := st.pos + 1 },
        { (if st.pos = 0 then resetLine s else s) with
            macroLockStack := (if st.pos = 0 then resetLine s else s).macroLocked ::
              (if st.pos = 0 then resetLine s else s).macroLockStack,
            macroLocked := false, exprStart := true, macroEligible := true,
            afterDot := false, inSwap := false })) ∧
    (∀ (st : StringStream) (s : RavenState) (c : Char) (tl : List Char),
      s.string = none → st.string.drop st.pos = c :: tl →
      (c = ')' ∨ c = ']' ∨ c = '}') →
      token st s = (some "bracket", { st with pos := st.pos + 1 },
        { (if st.pos = 0 then resetLine s else s) with
            macroLocked := (if st.pos = 0 then resetLine s else s).macroLockStack.headD false,
            macroLockStack := (if st.pos = 0 then resetLine s else s).macroLockStack.tail,
            exprStart := false, macroEligible := false,
            afterDot := false, inSwap := false })) ∧
    (∀ (n : Nat) (st : StringStream) (s : RavenState),
      s.macroLockStack = [] →
      (∀ k, k ≤ (runLine n st s).1.length →
        0 ≤ (((runLine n st s).1.take k).map bracketDelta).sum) →
      ((runLine n st s).2.macroLockStack.length : ℤ) =
        (((runLine n st s).1.map bracketDelta).sum) ∧
      ((((runLine n st s).1.map bracketDelta).sum) = 0 →
        (runLine n st s).2.macroLockStack = [])) := by
  refine ⟨fun st s c tl hs hd hc => token_open_delim hs hd hc,
          fun st s c tl hs hd hc => token_close_delim hs hd hc,
          fun n st s hstack hbal => ?_⟩
  have hbal' : ∀ k, 0 ≤ (s.macroLockStack.length : ℤ) +
      (((runLine n st s).1.take k).map bracketDelta).sum := by
    intro k
    rw [hstack]
    simp only [List.length_nil, Nat.cast_zero, zero_add]
    by_cases hk : k ≤ (runLine n st s).1.length
    · exact hbal k hk
    · have hall : ((runLine n st s).1.take k) = (runLine n st s).1 :=
        List.take_of_length_le (by omega)
      rw [hall]
      have := hbal (runLine n st s).1.length (Nat.le_refl _)
      rwa [List.take_length] at this
  have hmain := runLine_stack n st s hbal'
  rw [hstack] at hmain
  simp only [List.length_nil, Nat.cast_zero, zero_add] at hmain
  refine ⟨hmain, fun hz => ?_⟩
  rw [hz] at hmain
  have : (runLine n st s).2.macroLockStack.length = 0 := by omega
  exact List.length_eq_zero.mp this

/-- Witness for C2: an opening bracket after `x`, and the balanced line
`(x)` run from the initial state. -/
theorem claim_C2_bracket_stack_witness :
    token ⟨['x', '('], 1⟩ startState = (some "bracket", ⟨['x', '('], 2⟩,
      { startState with macroLockStack := [false], exprStart := true,
                        macroEligible := true }) ∧
    (runLine 5 ⟨"(x)".toList, 0⟩ startState).2.macroLockStack = [] := by
  constructor
  · have h1 := claim_C2_bracket_stack.1 ⟨['x', '('], 1⟩ startState '(' [] rfl rfl
      (Or.inl rfl)
    rw [h1]
    decide
  · exact (claim_C2_bracket_stack.2.2 5 ⟨"(x)".toList, 0⟩ startState rfl
      (by decide)).2 (by decide)

/-- C3 counterexample: the escaped string opened by `\"` (one escape marker,
close sequence `"` followed by one backslash) over content `\"\X"\` is NOT
terminated at the first occurrence of the close sequence.  The first
occurrence of `"`-then-`\` in the content (which starts at offset 2, after
the two-character open) is at content index 1, so the claimed rule would end
the token at position 2 + 1 + 2 = 5; the lexer instead skips that escaped
quote and closes at position 8. -/
theorem claim_C3_counterexample :
    firstIdx ['"', '\\'] (List.drop 2 ['\\', '"', '\\', '"', '\\', 'X', '"', '\\']) =
      some 1 ∧
    (token ⟨['\\', '"', '\\', '"', '\\', 'X', '"', '\\'], 0⟩ startState).2.1.pos = 8 ∧
    (token ⟨['\\', '"', '\\', '"', '\\', 'X', '"', '\\'], 0⟩ startState).2.2.string = none ∧
    2 + 1 + 2 ≠ 8 := by decide

/-- C3 (amended): (i) a string opened by `k` escape markers and a quote
records the close sequence quote-then-`k`-markers (and the escape sequence
`max 1 k` markers for non-raw strings); (ii) raw (backtick) strings are
terminated exactly at the first occurrence of the close sequence, or carry
the context to end of line when there is none; (iii) for every string,
whenever the scan closes the literal, the full close sequence — the quote
followed by all `k` markers — is present at the close point (so a quote
followed by fewer than `k` markers is never treated as a close), the context
is reset to null, and otherwise the line ends with the context untouched.
For non-raw strings escape handling may skip over escaped close candidates,
which is what the counterexample exhibits. -/
theorem claim_C3_escape_strings :
    (∀ (st : StringStream) (s : RavenState) (k : Nat) (q : Char) (rest : List Char),
      isQuoteCh q = true →
      st.string.drop st.pos = List.replicate k '\\' ++ q :: rest →
      startString st s = some
        ({ quote := q, slashes := k, raw := q == '\x60',
           close := q :: List.replicate k '\\',
           escape := if q == '\x60' then none
                     else some (List.replicate (max 1 k) '\\') },
         { st with pos := st.pos + k + 1 },
         { s with
             string := some { quote := q, slashes := k, raw := q == '\x60',
                              close := q :: List.replicate k '\\',
                              escape := if q == '\x60' then none
                                        else some (List.replicate (max 1 k) '\\') },
             exprStart := false, macroEligible := false,
             afterDot := false, inSwap := false })) ∧
    (∀ (st : StringStream) (s : RavenState) (info : StringState),
      info.raw = true → info.close ≠ [] → st.pos ≤ st.string.length →
      (∀ i, firstIdx info.close (st.string.drop st.pos) = some i →
        readString st s info =
          (some "string", { st with pos := st.pos + i + info.close.length },
           { s with string := none, exprStart := false, macroEligible := false })) ∧
      (firstIdx info.close (st.string.drop st.pos) = none →
        readString st s info = (some "string", { st with pos := st.string.length }, s))) ∧
    (∀ (st : StringStream) (s : RavenState) (info : StringState),
      st.pos ≤ st.string.length →
      ((∃ p, st.pos ≤ p ∧ info.close.isPrefixOf (st.string.drop p) = true ∧
          readString st s info = (some "string", { st with pos := p + info.close.length },
            { s with string := none, exprStart := false, macroEligible := false })) ∨
        readString st s info = (some "string", { st with pos := st.string.length }, s))) := by
  refine ⟨fun st s k q rest hq hd => startString_open hq hd,
          fun st s info hraw hc hp => ?_,
          fun st s info hp => ?_⟩
  · rw [readString]
    exact readStringGo_raw _ st s info hraw hc (Nat.le_refl _) hp
  · rw [readString]
    exact readStringGo_cases _ st s info (Nat.le_refl _) hp

/-- Witness for C3: the open `\"`, and the raw string
(backtick-quote, no markers) over `a`-backtick-`b` closing exactly at the
first backtick. -/
theorem claim_C3_escape_strings_witness :
    startString ⟨['\\', '"', 'x'], 0⟩ startState = some
      (⟨'"', 1, false, ['"', '\\'], some ['\\']⟩,
       ⟨['\\', '"', 'x'], 2⟩,
       { startState with
           string := some ⟨'"', 1, false, ['"', '\\'], some ['\\']⟩,
           exprStart := false, macroEligible := false }) ∧
    readString ⟨['a', '\x60', 'b'], 0⟩ startState ⟨'\x60', 0, true, ['\x60'], none⟩ =
      (some "string", ⟨['a', '\x60', 'b'], 2⟩,
       { startState with string := none, exprStart := false, macroEligible := false }) := by
  constructor
  · have h := claim_C3_escape_strings.1 ⟨['\\', '"', 'x'], 0⟩ startState 1 '"' ['x']
      (by decide) (by decide)
    rw [h]
    decide
  · have h := (claim_C3_escape_strings.2.1 ⟨['a', '\x60', 'b'], 0⟩ startState
      ⟨'\x60', 0, true, ['\x60'], none⟩ rfl (by decide) (by decide)).1 1 (by decide)
    rw [h]
    decide

/-- C4 counterexample: in `foo "x"` the identifier `foo` is otherwise
eligible (all flags right), what follows after skipping whitespace is the
start of a string literal, and yet promotion is NOT refused — `shouldKeyword`
returns true (the string is treated as a bare argument). -/
theorem claim_C4_counterexample :
    shouldKeyword ⟨"foo \"x\"".toList, 3⟩ startState = true ∧
    isStringStart (("foo \"x\"".toList).drop
      (peekNonSpace ⟨"foo \"x\"".toList, 3⟩).2) = true ∧
    startState.exprStart = true ∧ startState.macroEligible = true ∧
    startState.afterDot = false ∧ startState.inSwap = false ∧
    startState.macroLocked = false := by decide

/-- C4 (amended): promotion is refused when the start of a string literal
(an optional run of escape markers immediately followed by a quote) begins
IMMEDIATELY at the cursor after the identifier run, without skipping
whitespace; a string start separated by whitespace counts as an argument
start and allows promotion (in `foo "x"` the identifier `foo` becomes a
keyword). -/
theorem claim_C4_adjacent_string_refusal (st : StringStream) (s : RavenState)
    (hss : isStringStart (st.string.drop st.pos) = true) :
    shouldKeyword st s = false ∧
    (token ⟨"foo \"x\"".toList, 0⟩ startState).1 = some "keyword" :=
  ⟨shouldKeyword_false_of_stringStart hss, by decide⟩

/-- Witness for C4 at the position just after `tag` in `tag"foo"`. -/
theorem claim_C4_adjacent_string_refusal_witness :
    shouldKeyword ⟨"tag\"foo\"".toList, 3⟩ startState = false ∧
    (token ⟨"foo \"x\"".toList, 0⟩ startState).1 = some "keyword" :=
  claim_C4_adjacent_string_refusal ⟨"tag\"foo\"".toList, 3⟩ startState (by decide)

/-- C8 counterexample: the unrecognized character `$` (after `x`, with the
macro lock set) is consumed as a single character with no style, but
`macroLocked` is NOT cleared — it stays true — so "all context flags set
false" fails for `macroLocked`. -/
theorem claim_C8_counterexample :
    (token ⟨['x', '$'], 1⟩
      { string := none, exprStart := false, macroEligible := false, afterDot := false,
        inSwap := false, macroLocked := true, macroLockStack := [] }).1 = none ∧
    (token ⟨['x', '$'], 1⟩
      { string := none, exprStart := false, macroEligible := false, afterDot := false,
        inSwap := false, macroLocked := true, macroLockStack := [] }).2.1.pos = 2 ∧
    (token ⟨['x', '$'], 1⟩
      { string := none, exprStart := false, macroEligible := false, afterDot := false,
        inSwap := false, macroLocked := true, macroLockStack := [] }).2.2.macroLocked =
      true := by decide

/-- C8 (amended): `token` is a total function by construction, and a
character matched by no recognizer — not whitespace, not a digit or string
start, none of the dispatch characters, not an identifier start and not an
operator character — is consumed as a single character yielding the
uncategorized style `none`, with `exprStart`, `macroEligible`, `afterDot`
and `inSwap` set false; `macroLocked`, `macroLockStack` and the string
context are left unchanged. -/
theorem claim_C8_unrecognized_fallback (st : StringStream) (s : RavenState) (c : Char)
    (tl : List Char) (hs : s.string = none) (hd : st.string.drop st.pos = c :: tl)
    (hws : jsWhitespace c = false) (hdg : isDigitCh c = false)
    (hss : isStringStart (st.string.drop st.pos) = false)
    (hh : c ≠ '#') (hcm : c ≠ ',') (hdl : isDelimiter c = false) (hat : c ≠ '@')
    (hop : operatorChar c = false) (hdot : c ≠ '.') (hid : identifierStart c = false) :
    token st s = (none, { st with pos := st.pos + 1 },
      { (if st.pos = 0 then resetLine s else s) with
          exprStart := false, macroEligible := false,
          afterDot := false, inSwap := false }) :=
  token_fallback hs hd hws hdg hss hh hcm hdl hat hop hdot hid

/-- Witness for C8 at the `$` of `x$`. -/
theorem claim_C8_unrecognized_fallback_witness :
    token ⟨['x', '$'], 1⟩ startState = (none, ⟨['x', '$'], 2⟩,
      { startState with exprStart := false, macroEligible := false }) := by
  have h := claim_C8_unrecognized_fallback ⟨['x', '$'], 1⟩ startState '$' [] rfl rfl
    (by decide) (by decide) (by decide) (by decide) (by decide) (by decide) (by decide)
    (by decide) (by decide) (by decide)
  rw [h]
  decide
